import Mathlib

/-!
Verification development for `fastmail2ynab.py`.

This file contains a shallow embedding, in Lean 4, of the parts of the
program that the specification's claims are about: the date
validator/repairer, the defensive classifier-response parsing, the
idempotency-key generator (with a full MD5 implementation), the SQLite
ledger operations (processed-email ledger, classification cache, run
ledger), the orchestrator `_process_emails_impl`, and the undo path
`_undo_last_run_impl`.

Modelling conventions:
- Machine behaviour is modelled over `Nat`/`Int` (MD5 words are `Nat`
  reduced mod 2^32).  JSON numbers and monetary amounts are modelled as
  exact decimals `mant * 10 ^ exp10` (a stand-in for Python floats; no
  claim depends on float rounding).
- Effects (Anthropic / YNAB / Fastmail network calls, the questionary
  prompt) are modelled as explicit oracle functions in a `RunEnv`
  record, and every externally visible action is recorded in an event
  trace (`Ev`).  All calls to `datetime.now` within one run are modelled
  as returning the single instant `RunEnv.now` / `RunEnv.today`.
- SQLite tables are modelled as lists of rows;
  `INSERT OR REPLACE` on a primary key is modelled as filter-then-append.
-/

namespace F2Y

/-! ## Basic string helpers (kernel-computable replacements for the
Python string operations used by the script) -/

/-- Whitespace characters removed by Python's `str.strip()` (ASCII subset). -/
def isPySpace (c : Char) : Bool :=
  c = ' ' ∨ c = '\t' ∨ c = '\n' ∨ c = '\r' ∨ c = '\x0b' ∨ c = '\x0c'

/-- Strip leading and trailing whitespace from a character list. -/
def stripChars (cs : List Char) : List Char :=
  ((cs.dropWhile isPySpace).reverse.dropWhile isPySpace).reverse

/-- Model of Python `str.strip()`. -/
def pyStrip (s : String) : String := ⟨stripChars s.data⟩

/-- Model of a Python slice `s[:n]`. -/
def strTake (s : String) (n : Nat) : String := ⟨s.data.take n⟩

/-- Lowercase an ASCII letter (model of `str.lower`, ASCII fragment). -/
def lowerChar (c : Char) : Char :=
  if 'A' ≤ c ∧ c ≤ 'Z' then Char.ofNat (c.toNat + 32) else c

/-- Model of Python `str.lower()` (ASCII fragment). -/
def pyLower (s : String) : String := ⟨s.data.map lowerChar⟩

/-- Model of `email_received_at.replace("Z", "+00:00")`: every occurrence of
the single character `Z` is replaced by `+00:00`. -/
def replaceZ (s : String) : String :=
  ⟨s.data.foldr
    (fun c acc => if c = 'Z' then '+' :: '0' :: '0' :: ':' :: '0' :: '0' :: acc else c :: acc) []⟩

/-- Decidable lexicographic comparison on characters lists (stands in for
SQLite's `ORDER BY` on ISO-8601 timestamp strings). -/
def charsLt : List Char → List Char → Bool
  | [], [] => false
  | [], _ :: _ => true
  | _ :: _, [] => false
  | a :: as, b :: bs =>
    if a.toNat < b.toNat then true
    else if a.toNat = b.toNat then charsLt as bs
    else false

/-- String comparison used to order run timestamps. -/
def strLt (a b : String) : Bool := charsLt a.data b.data

/-- Digit test (by code point, so it reduces in the kernel). -/
def isDigit (c : Char) : Bool := 48 ≤ c.toNat ∧ c.toNat ≤ 57

/-- Numeric value of a decimal digit character. -/
def digitVal (c : Char) : Nat := c.toNat - 48

/-- Decimal digit character for a value below 10. -/
def digitChar (n : Nat) : Char := Char.ofNat (48 + n)

/-! ## Calendar dates

`datetime.date` values are modelled as year/month/day triples; comparisons
go through a day count so that `timedelta` arithmetic (`5 * 365` days and
`90` days in `validate_transaction_date`) is exact. -/

/-- A calendar date (Python `datetime.date`). -/
structure Ymd where
  y : Nat
  m : Nat
  d : Nat
deriving DecidableEq, Repr

/-- Gregorian leap-year test. -/
def isLeap (y : Nat) : Bool := (y % 4 = 0 ∧ y % 100 ≠ 0) ∨ y % 400 = 0

/-- Month lengths of a year. -/
def monthTable (leap : Bool) : List Nat :=
  if leap then [31, 29, 31, 30, 31, 30, 31, 31, 30, 31, 30, 31]
  else [31, 28, 31, 30, 31, 30, 31, 31, 30, 31, 30, 31]

/-- Length of a month (0 for an invalid month number). -/
def daysInMonth (y m : Nat) : Nat :=
  if 1 ≤ m ∧ m ≤ 12 then (monthTable (isLeap y)).getD (m - 1) 0 else 0

/-- Validity of a date as enforced by the `datetime` constructor
(year 1..9999, month 1..12, day within the month). -/
def validYmd (x : Ymd) : Bool :=
  1 ≤ x.y ∧ x.y ≤ 9999 ∧ 1 ≤ x.m ∧ x.m ≤ 12 ∧ 1 ≤ x.d ∧ x.d ≤ daysInMonth x.y x.m

/-- Days in the months of year `y` strictly before month `m`. -/
def daysBeforeMonth (y m : Nat) : Nat :=
  (List.range (m - 1)).foldl (fun acc i => acc + daysInMonth y (i + 1)) 0

/-- Day number of a date (proleptic Gregorian, day 1 = 0001-01-01), as an
integer so that subtracting `timedelta` windows cannot underflow. -/
def toDays (x : Ymd) : Int :=
  ((365 * (x.y - 1) + (x.y - 1) / 4 + (x.y - 1) / 400 - (x.y - 1) / 100
      + daysBeforeMonth x.y x.m + x.d : Nat) : Int)

/-! ## `strptime(s, "%Y-%m-%d")`

CPython's `_strptime` compiles this format to the regular expression
`(?P<Y>\d\d\d\d)-(?P<m>1[0-2]|0[1-9]|[1-9])-(?P<d>3[01]|[12]\d|0[1-9]|[1-9])`
anchored at the whole input; the matched numbers are then passed to the
`datetime` constructor, which re-checks calendar validity.  The parser
below reproduces that acceptance (regex backtracking never changes the
outcome for this format, because a two-digit month/day can never be
re-read as a one-digit one followed by the required literal). -/

/-- Parse the day field at the end of the input: `3[01]|[12]\d|0[1-9]|[1-9]`
followed by end of string. -/
def parseDayEnd : List Char → Option Nat
  | [c] => if isDigit c ∧ 1 ≤ digitVal c then some (digitVal c) else none
  | [c1, c2] =>
    if isDigit c1 ∧ isDigit c2 ∧ 1 ≤ digitVal c1 * 10 + digitVal c2
        ∧ digitVal c1 * 10 + digitVal c2 ≤ 31 then
      some (digitVal c1 * 10 + digitVal c2)
    else none
  | _ => none

/-- Parse `month "-" day` at the end of the input, month per
`1[0-2]|0[1-9]|[1-9]` (a failed two-digit alternative falls back to the
one-digit one, exactly as the regex backtracks). -/
def parseMonthDay : List Char → Option (Nat × Nat)
  | c1 :: c2 :: c3 :: rest =>
    if c3 = '-' ∧ isDigit c1 ∧ isDigit c2 ∧ 1 ≤ digitVal c1 * 10 + digitVal c2
        ∧ digitVal c1 * 10 + digitVal c2 ≤ 12 then
      (parseDayEnd rest).map (fun d => (digitVal c1 * 10 + digitVal c2, d))
    else if c2 = '-' ∧ isDigit c1 ∧ 1 ≤ digitVal c1 then
      (parseDayEnd (c3 :: rest)).map (fun d => (digitVal c1, d))
    else none
  | [c1, c2] =>
    if c2 = '-' ∧ isDigit c1 ∧ 1 ≤ digitVal c1 then
      (parseDayEnd []).map (fun d => (digitVal c1, d))
    else none
  | _ => none

/-- Model of `datetime.strptime(s, "%Y-%m-%d")` followed by the
`datetime` validity check; `none` models the raised `ValueError`. -/
def strptimeYmd (s : String) : Option Ymd :=
  match s.data with
  | y1 :: y2 :: y3 :: y4 :: c :: rest =>
    if c = '-' ∧ isDigit y1 ∧ isDigit y2 ∧ isDigit y3 ∧ isDigit y4 then
      let y := digitVal y1 * 1000 + digitVal y2 * 100 + digitVal y3 * 10 + digitVal y4
      match parseMonthDay rest with
      | some (m, d) =>
        if 1 ≤ y ∧ 1 ≤ d ∧ d ≤ daysInMonth y m then some ⟨y, m, d⟩ else none
      | none => none
    else none
  | _ => none

/-- Decimal digits of a number up to 9999, without padding (model of the
platform `strftime` rendering of `%Y`, which does not zero-pad). -/
def natDigits (n : Nat) : List Char :=
  if n < 10 then [digitChar n]
  else if n < 100 then [digitChar (n / 10), digitChar (n % 10)]
  else if n < 1000 then [digitChar (n / 100), digitChar (n / 10 % 10), digitChar (n % 10)]
  else [digitChar (n / 1000), digitChar (n / 100 % 10), digitChar (n / 10 % 10), digitChar (n % 10)]

/-- Model of `dt.strftime("%Y-%m-%d")`: month and day are zero-padded to
two digits, the year is printed unpadded. -/
def formatYmd (x : Ymd) : String :=
  ⟨natDigits x.y ++ '-' :: digitChar (x.m / 10) :: digitChar (x.m % 10)
      :: '-' :: digitChar (x.d / 10) :: [digitChar (x.d % 10)]⟩

/-! ## `datetime.fromisoformat`

The script feeds the JMAP `receivedAt` timestamp (after replacing `Z` by
`+00:00`) to `datetime.fromisoformat` and keeps only the date fields.
The model below accepts the calendar-date forms `YYYY-MM-DD` and
`YYYYMMDD`, optionally followed by a single separator character and a
time-of-day `HH[:MM[:SS[.f+]]]` with optional UTC offset `±HH:MM[:SS]`.
(ISO week-date inputs and basic-format times, which the Python 3.11
parser also accepts, never arise from JMAP and are outside the model.) -/

/-- Read exactly two digits. -/
def read2 : List Char → Option (Nat × List Char)
  | c1 :: c2 :: rest =>
    if isDigit c1 ∧ isDigit c2 then some (digitVal c1 * 10 + digitVal c2, rest) else none
  | _ => none

/-- One or more digits (the fractional-seconds field). -/
def allDigits1 (cs : List Char) : Bool :=
  match cs with
  | [] => false
  | _ => cs.all isDigit

/-- Seconds part `SS[.f+]` at end of input. -/
def validSecondsEnd (cs : List Char) : Bool :=
  match read2 cs with
  | some (ss, rest) =>
    decide (ss ≤ 59) &&
      (match rest with
       | [] => true
       | '.' :: fs => allDigits1 fs
       | _ => false)
  | none => false

/-- UTC offset `±HH:MM[:SS[.f+]]` at end of input (sign already consumed). -/
def validOffsetTail (cs : List Char) : Bool :=
  match read2 cs with
  | some (oh, rest) =>
    decide (oh ≤ 23) &&
      (match rest with
       | ':' :: rest2 =>
         (match read2 rest2 with
          | some (om, rest3) =>
            decide (om ≤ 59) && (match rest3 with
              | [] => true
              | ':' :: rest4 => validSecondsEnd rest4
              | _ => false)
          | none => false)
       | _ => false)
  | none => false

/-- Time of day `HH[:MM[:SS[.f+]]]` with optional offset, at end of input. -/
def validTimePart (cs : List Char) : Bool :=
  match read2 cs with
  | some (hh, rest) =>
    decide (hh ≤ 23) &&
      (match rest with
       | [] => true
       | '+' :: off => validOffsetTail off
       | '-' :: off => validOffsetTail off
       | ':' :: rest2 =>
         (match read2 rest2 with
          | some (mm, rest3) =>
            decide (mm ≤ 59) &&
              (match rest3 with
               | [] => true
               | '+' :: off => validOffsetTail off
               | '-' :: off => validOffsetTail off
               | ':' :: rest4 =>
                 (match read2 rest4 with
                  | some (ss, rest5) =>
                    decide (ss ≤ 59) &&
                      (match rest5 with
                       | [] => true
                       | '+' :: off => validOffsetTail off
                       | '-' :: off => validOffsetTail off
                       | '.' :: fs =>
                         (!(fs.takeWhile isDigit).isEmpty &&
                           (match fs.dropWhile isDigit with
                            | [] => true
                            | '+' :: off => validOffsetTail off
                            | '-' :: off => validOffsetTail off
                            | _ => false))
                       | _ => false)
                  | none => false)
               | _ => false)
          | none => false)
       | _ => false)
  | none => false

/-- Date fields + rest after the calendar-date portion. -/
def readIsoDate : List Char → Option (Ymd × List Char)
  | y1 :: y2 :: y3 :: y4 :: rest =>
    if isDigit y1 ∧ isDigit y2 ∧ isDigit y3 ∧ isDigit y4 then
      let y := digitVal y1 * 1000 + digitVal y2 * 100 + digitVal y3 * 10 + digitVal y4
      match rest with
      | '-' :: m1 :: m2 :: '-' :: d1 :: d2 :: rest2 =>
        if isDigit m1 ∧ isDigit m2 ∧ isDigit d1 ∧ isDigit d2 then
          some (⟨y, digitVal m1 * 10 + digitVal m2, digitVal d1 * 10 + digitVal d2⟩, rest2)
        else none
      | m1 :: m2 :: d1 :: d2 :: rest2 =>
        if isDigit m1 ∧ isDigit m2 ∧ isDigit d1 ∧ isDigit d2 then
          some (⟨y, digitVal m1 * 10 + digitVal m2, digitVal d1 * 10 + digitVal d2⟩, rest2)
        else none
      | _ => none
    else none
  | _ => none

/-- Model of `datetime.fromisoformat(s)`, keeping only the date fields
(the script immediately serialises the result with `strftime("%Y-%m-%d")`).
`none` models the raised `ValueError`. -/
def fromisoDate (s : String) : Option Ymd :=
  match readIsoDate s.data with
  | none => none
  | some (x, rest) =>
    if validYmd x then
      match rest with
      | [] => some x
      | _ :: timeChars => if validTimePart timeChars then some x else none
    else none

/-! ## `validate_transaction_date` (source lines 416-458) -/

/-- Fallback branch of `validate_transaction_date`: derive the date from the
email's `receivedAt` timestamp, re-serialise and re-parse it, and accept it
only inside `[today - 5*365 days, today]`; the fallback is never future. -/
def dateFallback (today : Ymd) (email_received_at : String) : Option String × Bool :=
  match fromisoDate (replaceZ email_received_at) with
  | none => (none, false)
  | some f =>
    let fallback := formatYmd f
    match strptimeYmd fallback with
    | none => (none, false)
    | some p =>
      if toDays today - 1825 ≤ toDays p ∧ toDays p ≤ toDays today then (some fallback, false)
      else (none, false)

/-- Model of `validate_transaction_date(date_str, email_received_at)` at a
given `today` (the value of `datetime.now(UTC).date()`).  The candidate is
accepted iff it parses under `%Y-%m-%d` and lies in
`[today - 5*365 days, today + 90 days]`; otherwise the email date fallback
is tried. -/
def validate_transaction_date (today : Ymd) (date_str : Option String)
    (email_received_at : String) : Option String × Bool :=
  match date_str with
  | some s =>
    if s ≠ "" then
      match strptimeYmd s with
      | some p =>
        if toDays today - 1825 ≤ toDays p ∧ toDays p ≤ toDays today + 90 then
          (some s, decide (toDays today < toDays p))
        else dateFallback today email_received_at
      | none => dateFallback today email_received_at
    else dateFallback today email_received_at
  | none => dateFallback today email_received_at

/-! ## JSON

A small model of `json.loads` sufficient for the classifier response and
the `YNAB_ACCOUNTS` configuration value.  Numbers are kept as exact
decimals `mant * 10 ^ exp10` (Python would produce `int`/`float`; no claim
depends on binary float rounding).  The `NaN`/`Infinity` extensions of
Python's decoder are outside the model. -/

/-- An exact decimal number `mant * 10 ^ exp10`. -/
structure JNum where
  mant : Int
  exp10 : Int
deriving DecidableEq, Repr

/-- JSON values. -/
inductive J where
  | null
  | bool (b : Bool)
  | num (n : JNum)
  | str (s : String)
  | arr (xs : List J)
  | obj (kvs : List (String × J))

/-- Skip JSON whitespace. -/
def skipWs : List Char → List Char
  | c :: cs => if c = ' ' ∨ c = '\t' ∨ c = '\n' ∨ c = '\r' then skipWs cs else c :: cs
  | [] => []

/-- Four hex digits (for `\uXXXX` escapes). -/
def hexVal (c : Char) : Option Nat :=
  if isDigit c then some (digitVal c)
  else if 97 ≤ c.toNat ∧ c.toNat ≤ 102 then some (c.toNat - 87)
  else if 65 ≤ c.toNat ∧ c.toNat ≤ 70 then some (c.toNat - 55)
  else none

/-- Read a `\uXXXX` code unit. -/
def readHex4 : List Char → Option (Nat × List Char)
  | c1 :: c2 :: c3 :: c4 :: rest =>
    match hexVal c1, hexVal c2, hexVal c3, hexVal c4 with
    | some a, some b, some c, some d => some (a * 4096 + b * 256 + c * 16 + d, rest)
    | _, _, _, _ => none
  | _ => none

/-- Parse the body of a JSON string (opening quote already consumed).
Surrogate pairs in `\u` escapes are combined; a lone surrogate (which
Python would keep as a lone surrogate code point) is mapped through
`Char.ofNat` and is outside the model. -/
def pString : Nat → List Char → Option (String × List Char)
  | 0, _ => none
  | _ + 1, [] => none
  | fuel + 1, c :: cs =>
    if c = '"' then some ("", cs)
    else if c = '\\' then
      match cs with
      | [] => none
      | e :: cs2 =>
        let dec : Option (Char × List Char) :=
          if e = '"' then some ('"', cs2)
          else if e = '\\' then some ('\\', cs2)
          else if e = '/' then some ('/', cs2)
          else if e = 'b' then some ('\x08', cs2)
          else if e = 'f' then some ('\x0c', cs2)
          else if e = 'n' then some ('\n', cs2)
          else if e = 'r' then some ('\r', cs2)
          else if e = 't' then some ('\t', cs2)
          else if e = 'u' then
            match readHex4 cs2 with
            | none => none
            | some (u, cs3) =>
              if 0xd800 ≤ u ∧ u ≤ 0xdbff then
                match cs3 with
                | '\\' :: 'u' :: cs4 =>
                  match readHex4 cs4 with
                  | some (v, cs5) =>
                    if 0xdc00 ≤ v ∧ v ≤ 0xdfff then
                      some (Char.ofNat (0x10000 + (u - 0xd800) * 1024 + (v - 0xdc00)), cs5)
                    else some (Char.ofNat u, cs3)
                  | none => some (Char.ofNat u, cs3)
                | _ => some (Char.ofNat u, cs3)
              else some (Char.ofNat u, cs3)
          else none
        match dec with
        | none => none
        | some (ch, rest) =>
          match pString fuel rest with
          | some (s, rest2) => some (⟨ch :: s.data⟩, rest2)
          | none => none
    else if c.toNat < 0x20 then none
    else
      match pString fuel cs with
      | some (s, rest2) => some (⟨c :: s.data⟩, rest2)
      | none => none

/-- Read one or more decimal digits. -/
def readDigits : List Char → Option (List Char × List Char)
  | cs =>
    let ds := cs.takeWhile isDigit
    if ds.isEmpty then none else some (ds, cs.dropWhile isDigit)

/-- Numeric value of a digit list. -/
def digitsVal (ds : List Char) : Nat :=
  ds.foldl (fun acc c => acc * 10 + digitVal c) 0

/-- Parse a JSON number per the grammar
`-? (0 | [1-9][0-9]*) ('.' [0-9]+)? ([eE] [+-]? [0-9]+)?`. -/
def pNumber (cs : List Char) : Option (JNum × List Char) :=
  let (neg, cs1) := match cs with
    | '-' :: rest => (true, rest)
    | _ => (false, cs)
  match readDigits cs1 with
  | none => none
  | some (ints, cs2) =>
    if ints.length > 1 ∧ ints.headD '0' = '0' then none
    else
      let (fracs, cs3) := match cs2 with
        | '.' :: rest =>
          match readDigits rest with
          | some (fs, rest2) => (some fs, rest2)
          | none => (none, '.' :: rest)
        | _ => (some [], cs2)
      match fracs with
      | none => none
      | some fs =>
        let (expv, cs4) : Option Int × List Char := match cs3 with
          | 'e' :: rest | 'E' :: rest =>
            let (eneg, rest1) := match rest with
              | '-' :: r => (true, r)
              | '+' :: r => (false, r)
              | _ => (false, rest)
            match readDigits rest1 with
            | some (es, rest2) =>
              (some (if eneg then -(digitsVal es : Int) else (digitsVal es : Int)), rest2)
            | none => (none, cs3)
          | _ => (some 0, cs3)
        match expv with
        | none => none
        | some e =>
          let mant : Int := (digitsVal (ints ++ fs) : Int)
          some (⟨if neg then -mant else mant, e - fs.length⟩, cs4)

mutual

/-- Parse one JSON value (leading whitespace skipped by the caller). -/
def pValue : Nat → List Char → Option (J × List Char)
  | 0, _ => none
  | fuel + 1, cs =>
    match cs with
    | 'n' :: 'u' :: 'l' :: 'l' :: rest => some (J.null, rest)
    | 't' :: 'r' :: 'u' :: 'e' :: rest => some (J.bool true, rest)
    | 'f' :: 'a' :: 'l' :: 's' :: 'e' :: rest => some (J.bool false, rest)
    | '"' :: rest =>
      match pString (fuel + 1) rest with
      | some (s, rest2) => some (J.str s, rest2)
      | none => none
    | '[' :: rest =>
      (match skipWs rest with
       | ']' :: rest2 => some (J.arr [], rest2)
       | cs2 => match pElems fuel cs2 with
         | some (xs, rest2) => some (J.arr xs, rest2)
         | none => none)
    | '\x7b' :: rest =>
      (match skipWs rest with
       | '\x7d' :: rest2 => some (J.obj [], rest2)
       | cs2 => match pMembers fuel cs2 with
         | some (kvs, rest2) => some (J.obj kvs, rest2)
         | none => none)
    | _ =>
      match pNumber cs with
      | some (n, rest) => some (J.num n, rest)
      | none => none

/-- Parse comma-separated array elements up to the closing bracket. -/
def pElems : Nat → List Char → Option (List J × List Char)
  | 0, _ => none
  | fuel + 1, cs =>
    match pValue fuel (skipWs cs) with
    | none => none
    | some (v, rest) =>
      match skipWs rest with
      | ',' :: rest2 =>
        (match pElems fuel rest2 with
         | some (xs, rest3) => some (v :: xs, rest3)
         | none => none)
      | ']' :: rest2 => some ([v], rest2)
      | _ => none

/-- Parse comma-separated object members up to the closing brace. -/
def pMembers : Nat → List Char → Option (List (String × J) × List Char)
  | 0, _ => none
  | fuel + 1, cs =>
    match skipWs cs with
    | '"' :: rest =>
      (match pString (fuel + 1) rest with
       | none => none
       | some (k, rest2) =>
         match skipWs rest2 with
         | ':' :: rest3 =>
           (match pValue fuel (skipWs rest3) with
            | none => none
            | some (v, rest4) =>
              match skipWs rest4 with
              | ',' :: rest5 =>
                (match pMembers fuel rest5 with
                 | some (kvs, rest6) => some ((k, v) :: kvs, rest6)
                 | none => none)
              | '\x7d' :: rest5 => some ([(k, v)], rest5)
              | _ => none)
         | _ => none)
    | _ => none

end

/-- Model of `json.loads`: parse a complete document with optional
surrounding whitespace. -/
def jsonParse (s : String) : Option J :=
  match pValue (s.data.length + 1) (skipWs s.data) with
  | some (v, rest) => if (skipWs rest).isEmpty then some v else none
  | none => none

/-! ## Python dynamic-value helpers -/

/-- Python truthiness of a decoded JSON value. -/
def jTruthy : J → Bool
  | .null => false
  | .bool b => b
  | .num n => n.mant ≠ 0
  | .str s => !s.data.isEmpty
  | .arr xs => !xs.isEmpty
  | .obj kvs => !kvs.isEmpty

/-- Model of `dict.get(k)` on a decoded object: the last binding wins, and
a missing key yields `none`. -/
def jGetOpt (kvs : List (String × J)) (key : String) : Option J :=
  kvs.foldl (fun acc kv => if kv.1 = key then some kv.2 else acc) none

/-- Model of `dict.get(k)` with the Python default `None` mapped to
`J.null` (absent key and explicit `null` behave identically downstream). -/
def jGetD (kvs : List (String × J)) (key : String) : J :=
  (jGetOpt kvs key).getD J.null

/-- Exceptions relevant to the classifier-response conversion: a
`ValueError`/`KeyError` is caught by the adapter's `except` clause, every
other exception (`TypeError`, `AttributeError`, ...) escapes to the
orchestrator's per-email handler. -/
inductive PyErr where
  | valueError
  | escape
deriving DecidableEq, Repr

/-- Truncation toward zero of an exact decimal: Python `int(x)` on a
number. -/
def jnumTrunc (n : JNum) : Int :=
  if 0 ≤ n.exp10 then n.mant * 10 ^ n.exp10.toNat
  else n.mant.tdiv (10 ^ (-n.exp10).toNat)

/-- Model of Python `int(s)` for strings: optional surrounding whitespace,
optional sign, decimal digits with optional single underscores between
digits; `none` models the raised `ValueError`. -/
def parsePyInt (s : String) : Option Int :=
  let cs := stripChars s.data
  let (neg, cs1) := match cs with
    | '-' :: rest => (true, rest)
    | '+' :: rest => (false, rest)
    | _ => (false, cs)
  let rec go : List Char → Option Nat
    | [] => none
    | [c] => if isDigit c then some (digitVal c) else none
    | c :: '_' :: c2 :: rest =>
      if isDigit c ∧ isDigit c2 then
        (go (c2 :: rest)).map (fun v => digitVal c * 10 ^ (c2 :: rest).length + v)
      else none
    | c :: rest =>
      if isDigit c then (go rest).map (fun v => digitVal c * 10 ^ rest.length + v) else none
  match go cs1 with
  | some v => some (if neg then -(v : Int) else (v : Int))
  | none => none

/-- Digits with optional single underscores between them; returns the
cleaned digit list and the remainder. -/
def readPyDigits : List Char → Option (List Char × List Char)
  | cs =>
    let rec go : List Char → Option (List Char × List Char)
      | [] => some ([], [])
      | c :: '_' :: c2 :: rest =>
        if isDigit c ∧ isDigit c2 then
          (go (c2 :: rest)).map (fun p => (c :: p.1, p.2))
        else if isDigit c then some ([c], '_' :: c2 :: rest)
        else none
      | c :: rest =>
        if isDigit c then
          match go rest with
          | some (ds, r) => some (c :: ds, r)
          | none => some ([c], rest)
        else some ([], c :: rest)
    match go cs with
    | some ([], _) => none
    | some (ds, r) => some (ds, r)
    | none => none

/-- Model of Python `float(s)` as an exact decimal: optional whitespace and
sign, then `d+[.d*][e±d+]`, `.d+[e±d+]` or `d+.`; the `inf`/`nan` spellings
are outside the model. `none` models the raised `ValueError`. -/
def parsePyFloat (s : String) : Option JNum :=
  let cs := stripChars s.data
  let (neg, cs1) := match cs with
    | '-' :: rest => (true, rest)
    | '+' :: rest => (false, rest)
    | _ => (false, cs)
  let intPart : Option (List Char) × List Char := match readPyDigits cs1 with
    | some (ds, rest) => (some ds, rest)
    | none => (some [], cs1)
  let (ints, cs2) := intPart
  match ints with
  | none => none
  | some ints =>
    let fracPart : Option (List Char) × List Char := match cs2 with
      | '.' :: rest =>
        (match readPyDigits rest with
         | some (fs, rest2) => (some fs, rest2)
         | none => (some [], rest))
      | _ => (some [], cs2)
    let (fracs, cs3) := fracPart
    match fracs with
    | none => none
    | some fs =>
      if ints.isEmpty ∧ fs.isEmpty then none
      else
        let expPart : Option Int × List Char := match cs3 with
          | 'e' :: rest | 'E' :: rest =>
            let (eneg, rest1) := match rest with
              | '-' :: r => (true, r)
              | '+' :: r => (false, r)
              | _ => (false, rest)
            (match readPyDigits rest1 with
             | some (es, rest2) =>
               (some (if eneg then -(digitsVal es : Int) else (digitsVal es : Int)), rest2)
             | none => (none, cs3))
          | _ => (some 0, cs3)
        match expPart with
        | (none, _) => none
        | (some e, rest) =>
          match rest with
          | [] =>
            let mant : Int := (digitsVal (ints ++ fs) : Int)
            some ⟨if neg then -mant else mant, e - fs.length⟩
          | _ => none

/-- Non-string JSON values in the nominally-string fields (`merchant`,
`date`, ...) would flow untyped through the Python dataclass; such inputs
are outside the model and map to `none`. -/
def jAsOptStr : J → Option String
  | .str s => some s
  | _ => none

/-! ## MD5 (RFC 1321), used by `generate_import_id`

Words are `Nat` values kept below `2^32` by explicit reduction. -/

/-- UTF-8 encoding of one character. -/
def utf8Bytes (c : Char) : List Nat :=
  let n := c.toNat
  if n < 0x80 then [n]
  else if n < 0x800 then [0xc0 + n / 64, 0x80 + n % 64]
  else if n < 0x10000 then [0xe0 + n / 4096, 0x80 + n / 64 % 64, 0x80 + n % 64]
  else [0xf0 + n / 262144, 0x80 + n / 4096 % 64, 0x80 + n / 64 % 64, 0x80 + n % 64]

/-- UTF-8 bytes of a string (model of `str.encode()`). -/
def strBytes (s : String) : List Nat :=
  s.data.foldr (fun c acc => utf8Bytes c ++ acc) []

/-- Reduce modulo `2^32`. -/
def w32 (n : Nat) : Nat := n % 4294967296

/-- Rotate a 32-bit word left by `s` bits. -/
def rotl32 (x s : Nat) : Nat := (x % 2 ^ (32 - s)) * 2 ^ s + x / 2 ^ (32 - s)

/-- Bitwise complement of a 32-bit word. -/
def mnot (x : Nat) : Nat := 4294967295 - x

/-- The MD5 sine-derived constant table. -/
def md5K : List Nat :=
  [0xd76aa478, 0xe8c7b756, 0x242070db, 0xc1bdceee,
   0xf57c0faf, 0x4787c62a, 0xa8304613, 0xfd469501,
   0x698098d8, 0x8b44f7af, 0xffff5bb1, 0x895cd7be,
   0x6b901122, 0xfd987193, 0xa679438e, 0x49b40821,
   0xf61e2562, 0xc040b340, 0x265e5a51, 0xe9b6c7aa,
   0xd62f105d, 0x02441453, 0xd8a1e681, 0xe7d3fbc8,
   0x21e1cde6, 0xc33707d6, 0xf4d50d87, 0x455a14ed,
   0xa9e3e905, 0xfcefa3f8, 0x676f02d9, 0x8d2a4c8a,
   0xfffa3942, 0x8771f681, 0x6d9d6122, 0xfde5380c,
   0xa4beea44, 0x4bdecfa9, 0xf6bb4b60, 0xbebfbc70,
   0x289b7ec6, 0xeaa127fa, 0xd4ef3085, 0x04881d05,
   0xd9d4d039, 0xe6db99e5, 0x1fa27cf8, 0xc4ac5665,
   0xf4292244, 0x432aff97, 0xab9423a7, 0xfc93a039,
   0x655b59c3, 0x8f0ccc92, 0xffeff47d, 0x85845dd1,
   0x6fa87e4f, 0xfe2ce6e0, 0xa3014314, 0x4e0811a1,
   0xf7537e82, 0xbd3af235, 0x2ad7d2bb, 0xeb86d391]

/-- The MD5 per-round left-rotation amounts. -/
def md5S : List Nat :=
  [7, 12, 17, 22, 7, 12, 17, 22, 7, 12, 17, 22, 7, 12, 17, 22,
   5, 9, 14, 20, 5, 9, 14, 20, 5, 9, 14, 20, 5, 9, 14, 20,
   4, 11, 16, 23, 4, 11, 16, 23, 4, 11, 16, 23, 4, 11, 16, 23,
   6, 10, 15, 21, 6, 10, 15, 21, 6, 10, 15, 21, 6, 10, 15, 21]

/-- Little-endian 8-byte encoding of the bit length. -/
def le8 (n : Nat) : List Nat :=
  [n % 256, n / 256 % 256, n / 65536 % 256, n / 16777216 % 256,
   n / 4294967296 % 256, n / 1099511627776 % 256,
   n / 281474976710656 % 256, n / 72057594037927936 % 256]

/-- MD5 message padding: `0x80`, zeros to 56 mod 64, then the bit length. -/
def md5Pad (msg : List Nat) : List Nat :=
  msg ++ 0x80 :: List.replicate ((119 - msg.length % 64) % 64) 0 ++ le8 (8 * msg.length)

/-- Group bytes into little-endian 32-bit words. -/
def bytesToWords : List Nat → List Nat
  | b0 :: b1 :: b2 :: b3 :: rest =>
    (b0 + 256 * b1 + 65536 * b2 + 16777216 * b3) :: bytesToWords rest
  | _ => []

/-- Split a byte list into 64-byte blocks. -/
def blocks64Aux : Nat → List Nat → List (List Nat)
  | 0, _ => []
  | _, [] => []
  | fuel + 1, l => l.take 64 :: blocks64Aux fuel (l.drop 64)

/-- Split into 64-byte blocks (fuelled, total). -/
def blocks64 (l : List Nat) : List (List Nat) := blocks64Aux l.length l

/-- One MD5 operation. -/
def md5Round (M : List Nat) (st : Nat × Nat × Nat × Nat) (i : Nat) : Nat × Nat × Nat × Nat :=
  let (a, b, c, d) := st
  let fg : Nat × Nat :=
    if i < 16 then (Nat.lor (Nat.land b c) (Nat.land (mnot b) d), i)
    else if i < 32 then (Nat.lor (Nat.land d b) (Nat.land (mnot d) c), (5 * i + 1) % 16)
    else if i < 48 then (Nat.xor b (Nat.xor c d), (3 * i + 5) % 16)
    else (Nat.xor c (Nat.lor b (mnot d)), (7 * i) % 16)
  let tmp := w32 (a + fg.1 + md5K.getD i 0 + M.getD fg.2 0)
  (d, w32 (b + rotl32 tmp (md5S.getD i 0)), b, c)

/-- Process one 64-byte block. -/
def md5Block (st : Nat × Nat × Nat × Nat) (block : List Nat) : Nat × Nat × Nat × Nat :=
  let M := bytesToWords block
  let r := (List.range 64).foldl (md5Round M) st
  (w32 (st.1 + r.1), w32 (st.2.1 + r.2.1), w32 (st.2.2.1 + r.2.2.1), w32 (st.2.2.2 + r.2.2.2))

/-- Little-endian bytes of a 32-bit word. -/
def wordLEBytes (x : Nat) : List Nat :=
  [x % 256, x / 256 % 256, x / 65536 % 256, x / 16777216 % 256]

/-- Lowercase hex digit. -/
def hexChar (n : Nat) : Char := if n < 10 then digitChar n else Char.ofNat (87 + n)

/-- Two hex digits of a byte. -/
def byteHex (b : Nat) : List Char := [hexChar (b / 16), hexChar (b % 16)]

/-- Model of `hashlib.md5(data).hexdigest()`. -/
def md5hex (data : List Nat) : String :=
  let r := (blocks64 (md5Pad data)).foldl md5Block (0x67452301, 0xefcdab89, 0x98badcfe, 0x10325476)
  ⟨(wordLEBytes r.1 ++ wordLEBytes r.2.1 ++ wordLEBytes r.2.2.1 ++ wordLEBytes r.2.2.2).foldr
      (fun b acc => byteHex b ++ acc) []⟩

/-! ## `generate_import_id` (source lines 1382-1410) -/

/-- Model of `generate_import_id(email_id, amount, date, force)`.  The
`amount` argument is discarded by the source (`del amount`); `now_iso`
makes the `datetime.now(UTC).isoformat()` read in the force branch
explicit. -/
def generate_import_id (email_id : String) (amount : JNum) (date : String)
    (force : Bool) (now_iso : String) : String :=
  let _ := amount
  let hash_input := if force then email_id ++ now_iso else email_id
  let hash_hex := strTake (md5hex (strBytes hash_input)) 16
  strTake ("YNAB:" ++ date ++ ":" ++ hash_hex) 36

/-! ## Data classes (source lines 301-413) -/

/-- A configured YNAB account. -/
structure Account where
  name : String
  ynab_id : String
  notes : Option String := none
  default : Bool := false
deriving DecidableEq, Repr

/-- An email as fetched from Fastmail. -/
structure Email where
  id : String
  subject : String
  from_email : String
  received_at : String
  body : String
deriving DecidableEq, Repr

/-- The result of the classifier adapter for one email. -/
structure ClassificationResult where
  score : Int
  is_inflow : Bool := false
  merchant : Option String := none
  matched_payee : Option String := none
  amount : Option JNum := none
  currency : Option String := none
  date : Option String := none
  date_confidence : Option String := none
  description : Option String := none
  reasoning : Option String := none
  account_name : Option String := none
deriving DecidableEq, Repr

/-- A transaction ready to be created in YNAB. -/
structure PendingTransaction where
  email_id : String
  account_id : String
  amount : JNum
  date : String
  payee_name : String
  memo : String
  import_id : Option String
  is_inflow : Bool
  is_scheduled : Bool := false
deriving DecidableEq, Repr

/-! ## Classifier adapter (source lines 1207-1363)

The prompt construction and the Anthropic API call are external; the
adapter model takes the raw response text and performs the script's
defensive parsing.  A `.error ()` result models an exception that escapes
`classify_email` (Python `TypeError`/`AttributeError` from the dynamic
field conversions), to be caught by the orchestrator's per-email handler;
parse failures never escape and instead produce the `score = 0`
sentinel results. -/

/-- Model of the regex fallback `re.search(r"\x7b[\s\S]*\x7d", text)`: the
match, when any exists, runs from the first opening brace to the last
closing brace at or after it. -/
def extractBraceBlock (s : String) : Option String :=
  let cs := s.data
  match cs.findIdx? (fun c => c = '\x7b') with
  | none => none
  | some i =>
    let lastClose := cs.length - 1 - (cs.reverse.findIdx? (fun c => c = '\x7d')).getD cs.length
    match cs.reverse.findIdx? (fun c => c = '\x7d') with
    | none => none
    | some _ =>
      if i < lastClose then some ⟨(cs.drop i).take (lastClose - i + 1)⟩ else none

/-- The `(data.get("direction") or "outflow").lower()` step. -/
def jDirection (v : J) : Except PyErr String :=
  if jTruthy v then
    match v with
    | .str s => .ok (pyLower s)
    | _ => .error .escape
  else .ok "outflow"

/-- The `int(data.get("score", 0))` step. -/
def jScoreInt (v : J) : Except PyErr Int :=
  match v with
  | .num n => .ok (jnumTrunc n)
  | .str s =>
    (match parsePyInt s with
     | some k => .ok k
     | none => .error .valueError)
  | .bool b => .ok (if b then 1 else 0)
  | _ => .error .escape

/-- The `float(data["amount"]) if data.get("amount") else None` step. -/
def jAmount (v : J) : Except PyErr (Option JNum) :=
  if jTruthy v then
    match v with
    | .num n => .ok (some n)
    | .str s =>
      (match parsePyFloat s with
       | some q => .ok (some q)
       | none => .error .valueError)
    | .bool _ => .ok (some ⟨1, 0⟩)
    | _ => .error .escape
  else .ok none

/-- The sentinel produced when the field conversions raise a
`ValueError`/`KeyError` (caught by the adapter). -/
def parseErrorResult : ClassificationResult :=
  { score := 0, reasoning := some "Parse error" }

/-- Convert a decoded JSON document to a `ClassificationResult`
(source lines 1345-1363). -/
def convertData : J → Except Unit ClassificationResult
  | .obj kvs =>
    (match jDirection (jGetD kvs "direction") with
     | .error .valueError => .ok parseErrorResult
     | .error .escape => .error ()
     | .ok direction =>
       match jScoreInt (jGetD kvs "score") with
       | .error .valueError => .ok parseErrorResult
       | .error .escape => .error ()
       | .ok score =>
         match jAmount (jGetD kvs "amount") with
         | .error .valueError => .ok parseErrorResult
         | .error .escape => .error ()
         | .ok amount =>
           .ok { score := score
                 is_inflow := direction = "inflow"
                 merchant := jAsOptStr (jGetD kvs "merchant")
                 matched_payee := jAsOptStr (jGetD kvs "matched_payee")
                 amount := amount
                 currency :=
                   (match jGetOpt kvs "currency" with
                    | none => some "USD"
                    | some v => jAsOptStr v)
                 date := jAsOptStr (jGetD kvs "date")
                 date_confidence := jAsOptStr (jGetD kvs "date_confidence")
                 description := jAsOptStr (jGetD kvs "description")
                 reasoning := jAsOptStr (jGetD kvs "reasoning")
                 account_name := jAsOptStr (jGetD kvs "account_name") })
  | _ => .error ()

/-- Score-0 sentinel for a response with no parseable JSON at all. -/
def failedParseResult : ClassificationResult :=
  { score := 0, reasoning := some "Failed to parse response" }

/-- Score-0 sentinel for a brace block that still fails to parse. -/
def failedJsonResult : ClassificationResult :=
  { score := 0, reasoning := some "Failed to parse JSON from response" }

/-- Model of `classify_email` from the raw response text onward
(source lines 1329-1363).  Never fails on a parse error; `.error ()` only
models dynamic-type exceptions escaping the conversion. -/
def classify_email (response_text : String) : Except Unit ClassificationResult :=
  let t := pyStrip response_text
  match jsonParse t with
  | some data => convertData data
  | none =>
    match extractBraceBlock t with
    | none => .ok failedParseResult
    | some block =>
      match jsonParse block with
      | some data => convertData data
      | none => .ok failedJsonResult

/-! ## SQLite ledger model (source lines 543-861)

Tables are lists of rows; `INSERT OR REPLACE` on the primary key is
modelled as removing the old row and appending the new one. -/

/-- A row of `processed_emails`. -/
structure PRow where
  email_id : String
  processed_at : String
  is_receipt : Bool
  ynab_transaction_id : Option String
  run_id : Option String
deriving DecidableEq, Repr

/-- A row of `runs`. -/
structure RunRow where
  run_id : String
  started_at : String
  completed_at : Option String
  transactions_created : Nat
deriving DecidableEq, Repr

/-- A row of `ynab_payees`. -/
structure PayeeRow where
  payee_id : String
  name : String
  transfer_account_id : Option String
  deleted : Bool
deriving DecidableEq, Repr

/-- The whole SQLite database. -/
structure DB where
  processed : List PRow
  cache : List (String × ClassificationResult)
  runs : List RunRow
  payees : List PayeeRow
  syncState : List (String × String)
deriving DecidableEq, Repr

/-- A freshly initialised database. -/
def DB.empty : DB := ⟨[], [], [], [], []⟩

/-- Model of `is_processed(email_id)` (source lines 723-735). -/
def is_processed (db : DB) (email_id : String) : Bool :=
  db.processed.any (fun p => p.email_id = email_id)

/-- Model of `mark_processed` (source lines 738-762): upsert keyed on
`email_id`, last write wins. -/
def mark_processed (db : DB) (email_id : String) (is_receipt : Bool)
    (ynab_id : Option String) (run_id : Option String) (now : String) : DB :=
  { db with processed :=
      db.processed.filter (fun p => p.email_id ≠ email_id)
        ++ [⟨email_id, now, is_receipt, ynab_id, run_id⟩] }

/-- Model of `get_cached_classification` (source lines 639-672). -/
def get_cached_classification (db : DB) (email_id : String) : Option ClassificationResult :=
  (db.cache.find? (fun kv => kv.1 = email_id)).map (fun kv => kv.2)

/-- Model of `cache_classification` (source lines 675-706): upsert keyed
on `email_id`. -/
def cache_classification (db : DB) (email_id : String) (result : ClassificationResult) : DB :=
  { db with cache := db.cache.filter (fun kv => kv.1 ≠ email_id) ++ [(email_id, result)] }

/-- Model of `start_run` (source lines 780-794). -/
def start_run (db : DB) (run_id now : String) : DB :=
  { db with runs := db.runs ++ [⟨run_id, now, none, 0⟩] }

/-- Model of `complete_run` (source lines 797-812). -/
def complete_run (db : DB) (run_id : String) (transactions_created : Nat) (now : String) : DB :=
  { db with runs := db.runs.map (fun r =>
      if r.run_id = run_id then
        { r with completed_at := some now, transactions_created := transactions_created }
      else r) }

/-- Model of `get_last_run` (source lines 815-829): the completed run with
the greatest `completed_at` timestamp. -/
def get_last_run (db : DB) : Option (String × Nat) :=
  ((db.runs.filter (fun r => r.completed_at ≠ none)).foldl
    (fun acc r =>
      match acc with
      | none => some r
      | some best =>
        if strLt (best.completed_at.getD "") (r.completed_at.getD "") then some r else some best)
    none).map (fun r => (r.run_id, r.transactions_created))

/-- Model of `get_transactions_for_run` (source lines 832-848): rows of
this run with a non-null transaction id. -/
def get_transactions_for_run (db : DB) (run_id : String) : List (String × String) :=
  db.processed.filterMap (fun p =>
    if p.run_id = some run_id then p.ynab_transaction_id.map (fun t => (p.email_id, t))
    else none)

/-- Model of `delete_run_records` (source lines 851-861): every
`processed_emails` row with this `run_id` and the run row itself are
deleted. -/
def delete_run_records (db : DB) (run_id : String) : DB :=
  { db with processed := db.processed.filter (fun p => p.run_id ≠ some run_id),
            runs := db.runs.filter (fun r => r.run_id ≠ run_id) }

/-! ## Account routing (source lines 877-909) -/

/-- Model of `get_default_account`; `none` models the raised `ValueError`
when no account is marked default. -/
def get_default_account (accounts : List Account) : Option Account :=
  accounts.find? (fun a => a.default)

/-- Model of `get_account_for_transaction`. -/
def get_account_for_transaction (account_name : Option String)
    (accounts : List Account) : Option Account :=
  match account_name with
  | some nm =>
    if nm ≠ "" then
      match accounts.find? (fun a => a.name = nm) with
      | some a => some a
      | none => get_default_account accounts
    else get_default_account accounts
  | none => get_default_account accounts

/-! ## Batch result mapping (source lines 1537-1552) -/

/-- Map a batch-create response back to `(email_id, transaction_id,
already_existed)` triples: members whose `import_id` is among the
duplicate ids are marked `already_existed`; the rest consume the created
ids in order (`none` if the response listed fewer created ids). -/
def map_batch_results (pts : List PendingTransaction)
    (created_ids dup_ids : List String) : List (String × Option String × Bool) :=
  (pts.foldl
    (fun (acc : List (String × Option String × Bool) × Nat) pt =>
      let isDup := match pt.import_id with
        | some iid => dup_ids.contains iid
        | none => false
      if isDup then (acc.1 ++ [(pt.email_id, none, true)], acc.2)
      else (acc.1 ++ [(pt.email_id, created_ids[acc.2]?, false)], acc.2 + 1))
    ([], 0)).1

/-! ## Orchestrator (source lines 1834-2179)

External effects are oracles in `RunEnv`; each externally visible action
is appended to an event trace. -/

/-- Externally visible actions of one invocation. -/
inductive Ev where
  | fetchEmails
  | payeeFetch
  | cacheLookup (email_id : String)
  | classifierCall (email_id : String)
  | batchSubmit (email_ids : List String)
  | scheduledSubmit (email_id : String)
  | deleteTxn (ynab_id : String)
  | mark (email_id : String)
deriving DecidableEq, Repr

/-- Whether an event is an outbound network call. -/
def Ev.isNetwork : Ev → Bool
  | .fetchEmails => true
  | .payeeFetch => true
  | .classifierCall _ => true
  | .batchSubmit _ => true
  | .scheduledSubmit _ => true
  | .deleteTxn _ => true
  | _ => false

/-- Whether an event is a YNAB transaction deletion. -/
def Ev.isDelete : Ev → Bool
  | .deleteTxn _ => true
  | _ => false

/-- The environment of one orchestrator run: configuration, the single
`datetime.now` instant of the run, and the oracles standing for the
external services and the interactive prompt. -/
structure RunEnv where
  min_score : Int
  accounts : List Account
  force : Bool
  today : Ymd
  now : String
  run_id : String
  emails : List Email
  response : String → Except Unit String
  payeesStale : Bool
  fetchedPayees : List PayeeRow
  serverKnowledge : String
  selection : List PendingTransaction → Option (List String)
  batchResponse : List PendingTransaction → Except Unit (List String × List String)
  scheduledResponse : PendingTransaction → Except Unit String

/-- Model of `cache_ynab_payees` (source lines 1684-1720). -/
def cache_ynab_payees (db : DB) (payees : List PayeeRow) (server_knowledge now : String) : DB :=
  let db := payees.foldl
    (fun d p => { d with payees := d.payees.filter (fun q => q.payee_id ≠ p.payee_id) ++ [p] }) db
  let s1 := db.syncState.filter (fun kv => kv.1 ≠ "payees_server_knowledge")
    ++ [("payees_server_knowledge", server_knowledge)]
  let s2 := s1.filter (fun kv => kv.1 ≠ "payees_last_sync") ++ [("payees_last_sync", now)]
  { db with syncState := s2 }

/-- Model of `refresh_payee_cache_if_needed` (source lines 1757-1779); the
staleness check (a clock comparison on `syncState`) is the oracle
`payeesStale`. -/
def refresh_payee_cache_if_needed (env : RunEnv) (db : DB) : DB × List Ev :=
  if env.payeesStale then
    (cache_ynab_payees db env.fetchedPayees env.serverKnowledge env.now, [Ev.payeeFetch])
  else (db, [])

/-- Outcome of the per-email gating chain (threshold, amount, date,
account routing) for one candidate email. -/
inductive GateOut where
  | nonReceipt
  | raised
  | pend (t : PendingTransaction)
deriving DecidableEq, Repr

/-- The gating chain of the scan loop (source lines 1947-2036): below
threshold, missing amount or unrecoverable date make the email
non-receipt; otherwise the pending transaction is built.  `raised` models
the `ValueError` of `get_default_account` escaping to the per-email
handler. -/
def gate (env : RunEnv) (e : Email) (result : ClassificationResult) : GateOut :=
  if result.score < env.min_score then .nonReceipt
  else
    match result.amount with
    | none => .nonReceipt
    | some amt =>
      match validate_transaction_date env.today result.date e.received_at with
      | (none, _) => .nonReceipt
      | (some tdate0, is_future) =>
        let use_scheduled := is_future ∧ result.date_confidence = some "certain"
        let tdate := if is_future ∧ ¬ use_scheduled then formatYmd env.today else tdate0
        let final_payee :=
          match result.matched_payee with
          | some s => if s ≠ "" then s else
              (match result.merchant with
               | some m => if m ≠ "" then m else "Unknown"
               | none => "Unknown")
          | none =>
            (match result.merchant with
             | some m => if m ≠ "" then m else "Unknown"
             | none => "Unknown")
        match get_account_for_transaction result.account_name env.accounts with
        | none => .raised
        | some account =>
          let memo := "fm2ynab | Run: " ++ strTake env.run_id 8
          let import_id :=
            if use_scheduled then none
            else some (generate_import_id e.id amt tdate env.force env.now)
          .pend ⟨e.id, account.ynab_id, amt, tdate, strTake final_payee 50, memo,
                 import_id, result.is_inflow, use_scheduled⟩

/-- State of the scan loop over the fetched emails. -/
structure ScanSt where
  db : DB
  events : List Ev
  skipped : Nat
  cached : Nat
  errors : Nat
  pending : List PendingTransaction
  nonReceipt : List String

/-- Dispatch on the gating outcome, after the classification result has
been obtained (from cache or classifier). -/
def afterClassify (env : RunEnv) (st : ScanSt) (db : DB) (evs : List Ev) (cachedCnt : Nat)
    (e : Email) (result : ClassificationResult) : ScanSt :=
  match gate env e result with
  | .nonReceipt =>
    { st with db := db, events := evs, cached := cachedCnt,
              nonReceipt := st.nonReceipt ++ [e.id] }
  | .raised =>
    { st with db := db, events := evs, cached := cachedCnt, errors := st.errors + 1 }
  | .pend t =>
    { st with db := db, events := evs, cached := cachedCnt, pending := st.pending ++ [t] }

/-- One iteration of the scan loop (source lines 1922-2041): skip
already-processed emails, otherwise classify via cache or classifier
(caching a fresh result), then run the gating chain; any exception is
caught and counted. -/
def processOne (env : RunEnv) (st : ScanSt) (e : Email) : ScanSt :=
  if ¬ env.force ∧ is_processed st.db e.id then
    { st with skipped := st.skipped + 1 }
  else
    let ev0 := st.events ++ [Ev.cacheLookup e.id]
    match get_cached_classification st.db e.id with
    | some result => afterClassify env st st.db ev0 (st.cached + 1) e result
    | none =>
      match env.response e.id with
      | .error _ =>
        { st with events := ev0 ++ [Ev.classifierCall e.id], errors := st.errors + 1 }
      | .ok text =>
        let ev1 := ev0 ++ [Ev.classifierCall e.id]
        match classify_email text with
        | .error _ => { st with events := ev1, errors := st.errors + 1 }
        | .ok result =>
          afterClassify env st (cache_classification st.db e.id result) ev1 st.cached e result

/-- State of the scheduled-transaction submission loop. -/
structure SchedSt where
  db : DB
  events : List Ev
  scheduled_added : Nat
  errors : Nat

/-- One scheduled-transaction creation (source lines 2087-2105): on
success the email is marked processed with the scheduled id, on failure
the error is counted and the email is left unmarked. -/
def submitScheduledOne (env : RunEnv) (st : SchedSt) (txn : PendingTransaction) : SchedSt :=
  let evs := st.events ++ [Ev.scheduledSubmit txn.email_id]
  match env.scheduledResponse txn with
  | .ok sid =>
    { db := mark_processed st.db txn.email_id true (some sid) (some env.run_id) env.now,
      events := evs ++ [Ev.mark txn.email_id],
      scheduled_added := st.scheduled_added + 1, errors := st.errors }
  | .error _ => { st with events := evs, errors := st.errors + 1 }

/-- State of the batch submission loop. -/
structure BatchSt where
  db : DB
  events : List Ev
  receipts_added : Nat
  duplicates : Nat
  errors : Nat

/-- Split a list into batches of 5 (the `range(0, len, 5)` slicing of the
source, fuelled to be total). -/
def chunks5Aux : Nat → List PendingTransaction → List (List PendingTransaction)
  | 0, _ => []
  | _, [] => []
  | fuel + 1, l => l.take 5 :: chunks5Aux fuel (l.drop 5)

/-- The batches submitted by the batch loop. -/
def chunks5 (l : List PendingTransaction) : List (List PendingTransaction) :=
  chunks5Aux l.length l

/-- One batch submission (source lines 2114-2139): a rejected batch
counts all members as errors and marks nothing; an accepted batch marks
every member processed, counting created versus duplicate outcomes. -/
def submitOneBatch (env : RunEnv) (st : BatchSt) (batch : List PendingTransaction) : BatchSt :=
  let evs := st.events ++ [Ev.batchSubmit (batch.map (fun t => t.email_id))]
  match env.batchResponse batch with
  | .error _ => { st with events := evs, errors := st.errors + batch.length }
  | .ok (created_ids, dup_ids) =>
    (map_batch_results batch created_ids dup_ids).foldl
      (fun (acc : BatchSt) r =>
        { db := mark_processed acc.db r.1 true r.2.1 (some env.run_id) env.now,
          events := acc.events ++ [Ev.mark r.1],
          receipts_added := if r.2.2 then acc.receipts_added else acc.receipts_added + 1,
          duplicates := if r.2.2 then acc.duplicates + 1 else acc.duplicates,
          errors := acc.errors })
      { st with events := evs }

/-- The batch submission phase: batches of 5, submitted in order. -/
def submitBatches (env : RunEnv) (st : BatchSt) (regular : List PendingTransaction) : BatchSt :=
  (chunks5 regular).foldl (submitOneBatch env) st

/-- Result of one orchestrator invocation. -/
structure RunOut where
  db : DB
  events : List Ev
  receipts_added : Nat
  scheduled_added : Nat
  duplicates : Nat
  skipped : Nat
  cached : Nat
  errors : Nat
  completed : Bool

/-- The post-confirmation phase (source lines 2078-2145): scheduled
transactions one at a time, regular transactions in batches of 5, then
the run record is completed with the created count. -/
def finishRun (env : RunEnv) (db : DB) (evs : List Ev) (skipped cached errors : Nat)
    (selected : List PendingTransaction) : RunOut :=
  let scheduled := selected.filter (fun t => t.is_scheduled)
  let regular := selected.filter (fun t => ¬ t.is_scheduled)
  let s1 := scheduled.foldl (submitScheduledOne env) ⟨db, evs, 0, errors⟩
  let s2 := submitBatches env ⟨s1.db, s1.events, 0, 0, s1.errors⟩ regular
  let db3 := complete_run s2.db env.run_id (s2.receipts_added + s1.scheduled_added) env.now
  ⟨db3, s2.events, s2.receipts_added, s1.scheduled_added, s2.duplicates,
   skipped, cached, s2.errors, true⟩

/-- The post-scan loop marking the non-receipt emails (source lines
2043-2045). -/
def markNonReceipts (run_id now : String) (a : DB × List Ev) (ids : List String) : DB × List Ev :=
  ids.foldl
    (fun a id => (mark_processed a.1 id false none (some run_id) now, a.2 ++ [Ev.mark id])) a

/-- The loop marking user-deselected transactions as processed without a
transaction id (source lines 2064-2072). -/
def markDeselected (run_id now : String) (a : DB × List Ev)
    (ts : List PendingTransaction) : DB × List Ev :=
  ts.foldl
    (fun a t =>
      (mark_processed a.1 t.email_id true none (some run_id) now, a.2 ++ [Ev.mark t.email_id])) a

/-- Model of `_process_emails_impl` (source lines 1878-2179): start a run,
refresh the payee cache, fetch and scan the emails, mark the non-receipt
emails, then either stop early (nothing pending, user cancel, empty
selection) or run the submission phase.  `completed` records whether
`complete_run` was reached. -/
def processEmailsImpl (env : RunEnv) (db0 : DB) : RunOut :=
  let db1 := start_run db0 env.run_id env.now
  let pr := refresh_payee_cache_if_needed env db1
  let ev1 := pr.2 ++ [Ev.fetchEmails]
  let st := env.emails.foldl (processOne env) ⟨pr.1, ev1, 0, 0, 0, [], []⟩
  let nr := markNonReceipts env.run_id env.now (st.db, st.events) st.nonReceipt
  if st.pending.isEmpty then
    ⟨nr.1, nr.2, 0, 0, 0, st.skipped, st.cached, st.errors, false⟩
  else
    match env.selection st.pending with
    | none => ⟨nr.1, nr.2, 0, 0, 0, st.skipped, st.cached, st.errors, false⟩
    | some chosen_ids =>
      let selected := st.pending.filter (fun t => chosen_ids.contains t.email_id)
      let selIds := selected.map (fun t => t.email_id)
      let des := markDeselected env.run_id env.now nr
        (st.pending.filter (fun t => ¬ selIds.contains t.email_id))
      if selected.isEmpty then
        ⟨des.1, des.2, 0, 0, 0, st.skipped, st.cached, st.errors, false⟩
      else finishRun env des.1 des.2 st.skipped st.cached st.errors selected

/-! ## Undo (source lines 2201-2252) -/

/-- Outcome of one YNAB transaction deletion. -/
inductive DResult where
  | success
  | notFound
  | failure
deriving DecidableEq, Repr

/-- Result of the undo path. -/
structure UndoOut where
  db : DB
  events : List Ev
  deleted : Nat
  not_found : Nat
  errors : Nat

/-- Model of `_undo_last_run_impl`: find the last completed run, delete
each of its YNAB transactions (failures and 404s only counted), then
delete the ledger rows unconditionally. -/
def undo_last_run_impl (db : DB) (oracle : String → DResult) : UndoOut :=
  match get_last_run db with
  | none => ⟨db, [], 0, 0, 0⟩
  | some (run_id, _count) =>
    let txns := get_transactions_for_run db run_id
    if txns.isEmpty then ⟨delete_run_records db run_id, [], 0, 0, 0⟩
    else
      let r := txns.foldl
        (fun (acc : List Ev × Nat × Nat × Nat) t =>
          if t.2 = "" then (acc.1, acc.2.1, acc.2.2.1 + 1, acc.2.2.2)
          else
            match oracle t.2 with
            | .success => (acc.1 ++ [Ev.deleteTxn t.2], acc.2.1 + 1, acc.2.2.1, acc.2.2.2)
            | .notFound => (acc.1 ++ [Ev.deleteTxn t.2], acc.2.1, acc.2.2.1 + 1, acc.2.2.2)
            | .failure => (acc.1 ++ [Ev.deleteTxn t.2], acc.2.1, acc.2.2.1, acc.2.2.2 + 1))
        ([], 0, 0, 0)
      ⟨delete_run_records db run_id, r.1, r.2.1, r.2.2.1, r.2.2.2⟩

/-! ## Configuration loading and the `process_emails` wrapper
(source lines 154-230 and 1834-1875) -/

/-- The `CONFIG` dictionary. -/
structure Cfg where
  fastmail_token : Option String
  anthropic_api_key : Option String
  ynab_token : Option String
  ynab_budget_id : Option String
  min_score : Int
deriving DecidableEq, Repr

/-- Python falsiness of an optional environment string. -/
def falsyStr : Option String → Bool
  | none => true
  | some s => s.data.isEmpty

/-- The `missing = [k for k, v in CONFIG.items() if not v]` check:
any falsy entry aborts the run (note that `min_score = 0` is falsy). -/
def configMissing (c : Cfg) : Bool :=
  falsyStr c.fastmail_token ∨ falsyStr c.anthropic_api_key ∨ falsyStr c.ynab_token
    ∨ falsyStr c.ynab_budget_id ∨ c.min_score = 0

/-- Result of `load_accounts`: either the account list or a raised
`SystemExit` carrying an error message (process exit status 1). -/
inductive AccountsLoad where
  | ok (accounts : List Account)
  | sysExit (msg : String)
deriving Repr

/-- Extract a required string field of one `YNAB_ACCOUNTS` entry; `none`
models the `if not ...` falsy check firing (absent, `null` or empty; a
non-string truthy value, which Python would carry along untyped, is
outside the model). -/
def reqField (kvs : List (String × J)) (key : String) : Option String :=
  match jAsOptStr (jGetD kvs key) with
  | some s => if s = "" then none else some s
  | none => none

/-- Build the account list from the decoded `YNAB_ACCOUNTS` entries
(source lines 189-223), checking the per-entry fields, duplicate names
and the exactly-one-default invariant. -/
def buildAccounts (env_notes : List (String × String)) :
    List J → List String → List Account → AccountsLoad
  | [], _, acc =>
    let defaults := acc.filter (fun a => a.default)
    if defaults.length = 0 then .sysExit "Error: No account marked as default in YNAB_ACCOUNTS"
    else if defaults.length > 1 then .sysExit "Error: Multiple default accounts"
    else .ok acc
  | item :: rest, seen, acc =>
    match item with
    | J.obj kvs =>
      (match reqField kvs "name" with
       | none => .sysExit "Error: YNAB_ACCOUNTS entry missing name"
       | some name =>
         match reqField kvs "ynab_id" with
         | none => .sysExit "Error: YNAB_ACCOUNTS entry missing ynab_id"
         | some ynab_id =>
           if seen.contains name then .sysExit ("Error: Duplicate account name " ++ name)
           else
             let notes := (env_notes.find? (fun kv => kv.1 = name)).map (fun kv => kv.2)
             buildAccounts env_notes rest (seen ++ [name])
               (acc ++ [⟨name, ynab_id, notes, jTruthy (jGetD kvs "default")⟩]))
    | _ => .sysExit "Error: YNAB_ACCOUNTS entry must be an object"

/-- Model of `load_accounts` (source lines 154-230): an absent or empty
`YNAB_ACCOUNTS` yields an empty list, invalid JSON or a non-array raise
`SystemExit`, otherwise the entries are validated. -/
def load_accounts (accounts_json : Option String)
    (env_notes : List (String × String)) : AccountsLoad :=
  match accounts_json with
  | none => .ok []
  | some s =>
    if s = "" then .ok []
    else
      match jsonParse s with
      | none => .sysExit "Error: YNAB_ACCOUNTS is not valid JSON"
      | some (J.arr items) => buildAccounts env_notes items [] []
      | some _ => .sysExit "Error: YNAB_ACCOUNTS must be a JSON array"

/-- Outcome of the `process_emails` entry point, retaining how the
process terminates: a plain `return` after printing (exit status 0), a
`SystemExit` (exit status 1) or an actual run. -/
inductive MainOut where
  | configError
  | noAccounts
  | sysExit (msg : String)
  | lockBusy
  | ran (out : RunOut)

/-- The process exit status of each outcome (the `__main__` block falls
through to a normal exit after `process_emails` returns). -/
def MainOut.exitCode : MainOut → Nat
  | .configError => 0
  | .noAccounts => 0
  | .sysExit _ => 1
  | .lockBusy => 1
  | .ran _ => 0

/-- The events performed by the invocation. -/
def MainOut.events : MainOut → List Ev
  | .ran out => out.events
  | _ => []

/-- Model of `process_emails` (source lines 1834-1875): validate the
configuration, load the accounts, take the lock, then run the
implementation with the loaded account list. -/
def process_emails (cfg : Cfg) (accounts_json : Option String)
    (env_notes : List (String × String)) (lockHeld : Bool)
    (env : RunEnv) (db0 : DB) : MainOut :=
  if configMissing cfg then .configError
  else
    match load_accounts accounts_json env_notes with
    | .sysExit msg => .sysExit msg
    | .ok accts =>
      if accts.isEmpty then .noAccounts
      else if lockHeld then .lockBusy
      else .ran (processEmailsImpl { env with accounts := accts, min_score := cfg.min_score } db0)

/-! ## Concrete scenarios

Closed instances used by the counterexamples and witnesses below: one
account configuration, a below-threshold email, a clear receipt email,
and classifier responses for them. -/

/-- The single configured account, marked default. -/
def wAcct : Account := ⟨"Main", "acct-uuid-1", none, true⟩

/-- A below-threshold (newsletter) email. -/
def wEmail1 : Email := ⟨"e1", "Newsletter", "news@example.com", "2026-10-10T08:00:00Z", "hello"⟩

/-- A clear receipt email. -/
def wEmail2 : Email := ⟨"e2", "Your receipt", "shop@example.com", "2026-10-10T09:00:00Z", "total"⟩

/-- Classifier response scoring `wEmail1` below the threshold. -/
def respLow : String :=
  "\x7b\"score\": 2, \"direction\": \"outflow\", \"reasoning\": \"newsletter\"\x7d"

/-- Classifier response extracting a transaction from `wEmail2`. -/
def respGood : String :=
  "\x7b\"score\": 9, \"direction\": \"outflow\", \"merchant\": \"Amazon\", \"amount\": 42.17, \"date\": \"2026-10-01\"\x7d"

/-- A classifier response that is not JSON and contains no brace block. -/
def respNoJson : String := "I cannot classify this email."

/-- A run environment over the two emails in which the user cancels at
the interactive confirmation step. -/
def cancelEnv : RunEnv :=
  { min_score := 6
    accounts := [wAcct]
    force := false
    today := ⟨2026, 10, 12⟩
    now := "2026-10-12T00:00:00+00:00"
    run_id := "run-0001-abcd"
    emails := [wEmail1, wEmail2]
    response := fun id => if id = "e1" then .ok respLow else .ok respGood
    payeesStale := false
    fetchedPayees := []
    serverKnowledge := "0"
    selection := fun _ => none
    batchResponse := fun _ => .ok ([], [])
    scheduledResponse := fun _ => .error () }

/-- A run environment in which the classifier response for the single
email fails to parse. -/
def parseFailEnv : RunEnv :=
  { cancelEnv with emails := [wEmail1], response := fun _ => .ok respNoJson }

/-- A run environment in which the user confirms both transactions and
the batch submission succeeds, creating one transaction id per member. -/
def okRunEnv : RunEnv :=
  { cancelEnv with
      selection := fun pts => some (pts.map (fun t => t.email_id))
      batchResponse := fun b => .ok (b.map (fun t => t.email_id ++ "-tid"), []) }

/-- Seven pending transactions (two batches of five and two), used by the
batch-isolation witness. -/
def wPending (i : Nat) : PendingTransaction :=
  ⟨"p" ++ ⟨natDigits i⟩, "acct-uuid-1", ⟨100, -2⟩, "2026-10-01",
   "Payee", "memo", some ("YNAB:2026-10-01:" ++ ⟨natDigits i⟩), false, false⟩

/-- The batch-isolation witness's regular transaction list. -/
def wRegular : List PendingTransaction := (List.range 7).map wPending

/-- A batch oracle that rejects the first batch (the one containing
`wPending 0`) and accepts later ones. -/
def wBatchEnv : RunEnv :=
  { okRunEnv with
      batchResponse := fun b =>
        if b.contains (wPending 0) then .error ()
        else .ok (b.map (fun t => t.email_id ++ "-tid"), []) }

/-! ## Derived notions used by the statements and proofs -/

/-- The `processed_emails` rows of one email id. -/
def rowsFor (id : String) (db : DB) : List PRow :=
  db.processed.filter (fun p => p.email_id = id)

/-- The rows of one run carrying a non-null transaction id (the rows the
undo path will try to delete). -/
def tidRows (r : String) (db : DB) : List PRow :=
  db.processed.filter (fun p => p.run_id = some r ∧ p.ynab_transaction_id ≠ none)

/-- Whether the classification cache holds an entry for an email id. -/
def cacheHas (db : DB) (id : String) : Bool :=
  (get_cached_classification db id).isSome

/-- A ledger holding `wEmail1` as already processed (by an earlier run). -/
def wDbPre : DB := ⟨[⟨"e1", "2026-09-01T00:00:00+00:00", false, none, none⟩], [], [], [], []⟩

/-- A database whose classification cache holds the parse-failure
sentinel for `wEmail1`. -/
def wDbCache : DB := ⟨[], [("e1", failedParseResult)], [], [], []⟩

/-- The initial scan-loop state over an empty database. -/
def wScan0 : ScanSt := ⟨DB.empty, [], 0, 0, 0, [], []⟩

/-- A configuration with the Fastmail token missing. -/
def wCfgMissing : Cfg := ⟨none, some "anthropic-key", some "ynab-token", some "budget-id", 6⟩

/-! ## Supporting lemmas -/

theorem strData_append (a b : String) : (a ++ b).data = a.data ++ b.data := rfl

theorem byteHex_length (b : Nat) : (byteHex b).length = 2 := rfl

theorem byteHex_foldr_length (l : List Nat) :
    (l.foldr (fun b acc => byteHex b ++ acc) []).length = 2 * l.length := by
  induction l with
  | nil => rfl
  | cons b rest ih =>
    simp only [List.foldr_cons, List.length_append, byteHex_length, ih, List.length_cons]
    omega

theorem wordLEBytes_length (x : Nat) : (wordLEBytes x).length = 4 := rfl

theorem md5hex_data_length (data : List Nat) : (md5hex data).data.length = 32 := by
  show (List.foldr _ [] _).length = 32
  rw [byteHex_foldr_length]
  simp [wordLEBytes_length]

theorem strTake_md5_length (data : List Nat) :
    (strTake (md5hex data) 16).data.length = 16 := by
  show ((md5hex data).data.take 16).length = 16
  rw [List.length_take, md5hex_data_length]
  decide

theorem strTake36_append_inj (p x y : String)
    (hx : p.data.length + x.data.length ≤ 36) (hy : p.data.length + y.data.length ≤ 36)
    (h : strTake (p ++ x) 36 = strTake (p ++ y) 36) : x = y := by
  obtain ⟨pd⟩ := p
  obtain ⟨xd⟩ := x
  obtain ⟨yd⟩ := y
  have hd : (pd ++ xd).take 36 = (pd ++ yd).take 36 := congrArg String.data h
  have hx' : (pd ++ xd).length ≤ 36 := by rw [List.length_append]; exact hx
  have hy' : (pd ++ yd).length ≤ 36 := by rw [List.length_append]; exact hy
  rw [List.take_of_length_le hx', List.take_of_length_le hy'] at hd
  exact congrArg String.mk (List.append_cancel_left hd)

/-! ## Claim C3 -/

/-- C3: idempotency-key generation is a pure function of `(email_id, date)`
when the force flag is absent — repeated calls (any call instants, any
amounts) return the identical key; with the force flag, the call instant
enters the digest input, so two calls whose 16-character digests differ
(as they do for distinct instants, barring an MD5-prefix collision)
return different keys whenever the date has its usual 10-character form. -/
theorem import_id_determinism :
    (∀ email_id amount₁ amount₂ date t₁ t₂,
        generate_import_id email_id amount₁ date false t₁
          = generate_import_id email_id amount₂ date false t₂) ∧
    (∀ email_id amount date t₁ t₂,
        strTake (md5hex (strBytes (email_id ++ t₁))) 16
            ≠ strTake (md5hex (strBytes (email_id ++ t₂))) 16 →
        date.data.length ≤ 10 →
        generate_import_id email_id amount date true t₁
          ≠ generate_import_id email_id amount date true t₂) := by
  constructor
  · intro email_id a₁ a₂ date t₁ t₂
    rfl
  · intro email_id amount date t₁ t₂ hne hlen heq
    apply hne
    have hp : ("YNAB:" ++ date ++ ":").data.length ≤ 20 := by
      rw [strData_append, strData_append]
      simp only [List.length_append, List.length_cons, List.length_nil]
      omega
    refine strTake36_append_inj ("YNAB:" ++ date ++ ":") _ _ ?_ ?_ heq
    · rw [strTake_md5_length]; omega
    · rw [strTake_md5_length]; omega

set_option maxRecDepth 100000 in
/-- Witness for C3 at concrete inputs: two calls one second apart under
the force flag produce different keys (the digest inequality is
discharged by computing both MD5 digests). -/
theorem import_id_determinism_witness :
    strTake (md5hex (strBytes ("e1" ++ "2026-10-12T00:00:00+00:00"))) 16
        ≠ strTake (md5hex (strBytes ("e1" ++ "2026-10-12T00:00:01+00:00"))) 16
      ∧ ("2026-10-12" : String).data.length ≤ 10
      ∧ generate_import_id "e1" ⟨4217, -2⟩ "2026-10-12" true "2026-10-12T00:00:00+00:00"
          ≠ generate_import_id "e1" ⟨4217, -2⟩ "2026-10-12" true "2026-10-12T00:00:01+00:00" :=
  ⟨by decide, by decide,
    import_id_determinism.2 "e1" ⟨4217, -2⟩ "2026-10-12"
      "2026-10-12T00:00:00+00:00" "2026-10-12T00:00:01+00:00" (by decide) (by decide)⟩

/-! ## Claim C4: supporting lemmas -/

theorem daysInMonth_le_31 (y m : Nat) : daysInMonth y m ≤ 31 := by
  unfold daysInMonth
  split
  · rename_i h
    obtain ⟨h1, h2⟩ := h
    unfold monthTable
    interval_cases m <;> split <;> decide
  · omega

theorem isDigit_digitChar (k : Nat) (h : k < 10) : isDigit (digitChar k) = true := by
  interval_cases k <;> decide

theorem digitVal_digitChar (k : Nat) (h : k < 10) : digitVal (digitChar k) = k := by
  interval_cases k <;> decide

theorem strptime_format (f : Ymd) (hv : validYmd f = true) (hy : 1000 ≤ f.y) :
    strptimeYmd (formatYmd f) = some f := by
  obtain ⟨y, m, d⟩ := f
  simp only [validYmd, decide_eq_true_eq] at hv
  obtain ⟨h1, h2, h3, h4, h5, h6⟩ := hv
  simp only at hy
  have hd31 : d ≤ 31 := le_trans h6 (daysInMonth_le_31 y m)
  have hnd : natDigits y =
      [digitChar (y / 1000), digitChar (y / 100 % 10), digitChar (y / 10 % 10), digitChar (y % 10)] := by
    unfold natDigits
    rw [if_neg (by omega), if_neg (by omega), if_neg (by omega)]
  have hdata : (formatYmd ⟨y, m, d⟩).data =
      digitChar (y / 1000) :: digitChar (y / 100 % 10) :: digitChar (y / 10 % 10) :: digitChar (y % 10)
        :: '-' :: digitChar (m / 10) :: digitChar (m % 10) :: '-' :: digitChar (d / 10)
        :: [digitChar (d % 10)] := by
    show (natDigits y ++ _) = _
    rw [hnd]
    rfl
  have e1 := digitVal_digitChar (y / 1000) (by omega)
  have e2 := digitVal_digitChar (y / 100 % 10) (by omega)
  have e3 := digitVal_digitChar (y / 10 % 10) (by omega)
  have e4 := digitVal_digitChar (y % 10) (by omega)
  have e5 := digitVal_digitChar (m / 10) (by omega)
  have e6 := digitVal_digitChar (m % 10) (by omega)
  have e7 := digitVal_digitChar (d / 10) (by omega)
  have e8 := digitVal_digitChar (d % 10) (by omega)
  have hm : m / 10 * 10 + m % 10 = m := by omega
  have hdd : d / 10 * 10 + d % 10 = d := by omega
  have hyy : y / 1000 * 1000 + y / 100 % 10 * 100 + y / 10 % 10 * 10 + y % 10 = y := by omega
  unfold strptimeYmd
  rw [hdata]
  simp only []
  rw [if_pos ⟨trivial, isDigit_digitChar _ (by omega), isDigit_digitChar _ (by omega),
              isDigit_digitChar _ (by omega), isDigit_digitChar _ (by omega)⟩]
  unfold parseMonthDay
  simp only []
  rw [if_pos ⟨trivial, isDigit_digitChar _ (by omega), isDigit_digitChar _ (by omega),
              by rw [e5, e6]; omega, by rw [e5, e6]; omega⟩]
  unfold parseDayEnd
  simp only []
  rw [if_pos ⟨isDigit_digitChar _ (by omega), isDigit_digitChar _ (by omega),
              by rw [e7, e8]; omega, by rw [e7, e8]; omega⟩]
  simp only [Option.map_some, Option.map_some', e1, e2, e3, e4, e5, e6, e7, e8, hm, hdd, hyy]
  rw [if_pos ⟨h1, h5, h6⟩]

theorem fromisoDate_validYmd (s : String) (f : Ymd) (h : fromisoDate s = some f) :
    validYmd f = true := by
  unfold fromisoDate at h
  rcases hr : readIsoDate s.data with _ | ⟨x, rest⟩
  · rw [hr] at h
    cases h
  · rw [hr] at h
    simp only [] at h
    by_cases hv : validYmd x = true
    · rw [if_pos hv] at h
      rcases rest with _ | ⟨sep, timeChars⟩
      · cases h
        exact hv
      · simp only [] at h
        by_cases ht : validTimePart timeChars = true
        · rw [if_pos ht] at h
          cases h
          exact hv
        · rw [if_neg ht] at h
          cases h
    · rw [if_neg hv] at h
      cases h

theorem dateFallback_snd (today : Ymd) (fb : String) : (dateFallback today fb).2 = false := by
  unfold dateFallback
  rcases h : fromisoDate (replaceZ fb) with _ | f
  · rfl
  · simp only []
    rcases hp : strptimeYmd (formatYmd f) with _ | p
    · rfl
    · simp only []
      split <;> rfl

theorem dateFallback_iso_none (today : Ymd) (fb : String)
    (h : fromisoDate (replaceZ fb) = none) : dateFallback today fb = (none, false) := by
  unfold dateFallback
  rw [h]

theorem dateFallback_iso_some (today : Ymd) (fb : String) (f : Ymd)
    (h : fromisoDate (replaceZ fb) = some f) (hy : 1000 ≤ f.y) :
    dateFallback today fb
      = if toDays today - 1825 ≤ toDays f ∧ toDays f ≤ toDays today
        then (some (formatYmd f), false) else (none, false) := by
  unfold dateFallback
  rw [h]
  simp only []
  rw [strptime_format f (fromisoDate_validYmd _ _ h) hy]

theorem validate_cand_some (today : Ymd) (s fb : String) (d : Ymd)
    (h : strptimeYmd s = some d) :
    validate_transaction_date today (some s) fb
      = if toDays today - 1825 ≤ toDays d ∧ toDays d ≤ toDays today + 90
        then (some s, decide (toDays today < toDays d)) else dateFallback today fb := by
  have hs : s ≠ "" := by
    intro he
    rw [he] at h
    cases h
  unfold validate_transaction_date
  simp only []
  rw [if_pos hs, h]

theorem validate_cand_none (today : Ymd) (s fb : String) (h : strptimeYmd s = none) :
    validate_transaction_date today (some s) fb = dateFallback today fb := by
  by_cases hs : s = ""
  · subst hs
    rfl
  · unfold validate_transaction_date
    simp only []
    rw [if_pos hs, h]

/-! ## Claim C4 -/

/-- C4: the date validator accepts the candidate string iff it parses
under the `%Y-%m-%d` format and lies within
`[today - 5*365 days, today + 90 days]` (exactly `today + 90` accepted,
`today + 91` rejected), reporting it future exactly when strictly after
`today`; otherwise it falls back to the date portion of the received-at
timestamp iff that lies within `[today - 5*365 days, today]`, never
future; every other case is the unrecoverable `(none, false)`. -/
theorem validate_date_spec :
    (∀ today s fb d, strptimeYmd s = some d →
        toDays today - 1825 ≤ toDays d → toDays d ≤ toDays today + 90 →
        validate_transaction_date today (some s) fb
          = (some s, decide (toDays today < toDays d)))
  ∧ (∀ today s fb, strptimeYmd s = none →
        validate_transaction_date today (some s) fb = dateFallback today fb)
  ∧ (∀ today fb, validate_transaction_date today none fb = dateFallback today fb)
  ∧ (∀ today s fb d, strptimeYmd s = some d →
        ¬ (toDays today - 1825 ≤ toDays d ∧ toDays d ≤ toDays today + 90) →
        validate_transaction_date today (some s) fb = dateFallback today fb)
  ∧ (∀ today s fb d, strptimeYmd s = some d → toDays d = toDays today + 90 →
        validate_transaction_date today (some s) fb = (some s, true))
  ∧ (∀ today s fb d, strptimeYmd s = some d → toDays d = toDays today + 91 →
        validate_transaction_date today (some s) fb = dateFallback today fb)
  ∧ (∀ today fb f, fromisoDate (replaceZ fb) = some f → 1000 ≤ f.y →
        dateFallback today fb
          = if toDays today - 1825 ≤ toDays f ∧ toDays f ≤ toDays today
            then (some (formatYmd f), false) else (none, false))
  ∧ (∀ today fb, fromisoDate (replaceZ fb) = none → dateFallback today fb = (none, false))
  ∧ (∀ today ds fb, (validate_transaction_date today ds fb).2 = true →
        ∃ s d, ds = some s ∧ (validate_transaction_date today ds fb).1 = some s
          ∧ strptimeYmd s = some d ∧ toDays today < toDays d) := by
  refine ⟨?_, ?_, ?_, ?_, ?_, ?_, ?_, ?_, ?_⟩
  · intro today s fb d h hlo hhi
    rw [validate_cand_some today s fb d h, if_pos ⟨hlo, hhi⟩]
  · exact fun today s fb h => validate_cand_none today s fb h
  · intro today fb
    rfl
  · intro today s fb d h hw
    rw [validate_cand_some today s fb d h, if_neg hw]
  · intro today s fb d h hd
    rw [validate_cand_some today s fb d h, if_pos ⟨by omega, by omega⟩]
    have hdec : decide (toDays today < toDays d) = true := by
      rw [decide_eq_true_eq]
      omega
    rw [hdec]
  · intro today s fb d h hd
    rw [validate_cand_some today s fb d h, if_neg (by omega)]
  · exact fun today fb f h hy => dateFallback_iso_some today fb f h hy
  · exact fun today fb h => dateFallback_iso_none today fb h
  · intro today ds fb h
    rcases ds with _ | s
    · have h2 : (dateFallback today fb).2 = true := h
      rw [dateFallback_snd today fb] at h2
      cases h2
    · rcases hp : strptimeYmd s with _ | d
      · have hv := validate_cand_none today s fb hp
        rw [hv] at h
        rw [dateFallback_snd today fb] at h
        cases h
      · have hv := validate_cand_some today s fb d hp
        rw [hv] at h
        by_cases hw : toDays today - 1825 ≤ toDays d ∧ toDays d ≤ toDays today + 90
        · rw [if_pos hw] at h
          refine ⟨s, d, rfl, ?_, hp, ?_⟩
          · rw [hv, if_pos hw]
          · exact of_decide_eq_true h
        · rw [if_neg hw] at h
          rw [dateFallback_snd today fb] at h
          cases h

/-- Witness for C4 at concrete inputs around today = 2026-10-12: the
`today + 90` boundary 2027-01-10 is accepted and future; 2027-01-11 is
rejected to the fallback; the email-date fallback is accepted inside its
window and never future; an unparseable timestamp is unrecoverable. -/
theorem validate_date_spec_witness :
    validate_transaction_date ⟨2026, 10, 12⟩ (some "2027-01-10") "2026-10-10T08:00:00Z"
        = (some "2027-01-10", true)
      ∧ validate_transaction_date ⟨2026, 10, 12⟩ (some "2027-01-11") "2026-10-10T08:00:00Z"
        = dateFallback ⟨2026, 10, 12⟩ "2026-10-10T08:00:00Z"
      ∧ dateFallback ⟨2026, 10, 12⟩ "2026-10-10T08:00:00Z" = (some "2026-10-10", false)
      ∧ dateFallback ⟨2026, 10, 12⟩ "garbage" = (none, false) := by
  refine ⟨?_, ?_, ?_, ?_⟩
  · exact validate_date_spec.2.2.2.2.1 ⟨2026, 10, 12⟩ "2027-01-10" _ ⟨2027, 1, 10⟩
      (by decide) (by decide)
  · exact validate_date_spec.2.2.2.2.2.1 ⟨2026, 10, 12⟩ "2027-01-11" _ ⟨2027, 1, 11⟩
      (by decide) (by decide)
  · rw [validate_date_spec.2.2.2.2.2.2.1 ⟨2026, 10, 12⟩ "2026-10-10T08:00:00Z" ⟨2026, 10, 10⟩
      (by decide) (by decide)]
    decide
  · exact validate_date_spec.2.2.2.2.2.2.2.1 ⟨2026, 10, 12⟩ "garbage" (by decide)

/-! ## Orchestrator structure lemmas -/

theorem afterClassify_db (env st db evs c e r) : (afterClassify env st db evs c e r).db = db := by
  unfold afterClassify
  split <;> rfl

theorem afterClassify_events (env st db evs c e r) :
    (afterClassify env st db evs c e r).events = evs := by
  unfold afterClassify
  split <;> rfl

theorem afterClassify_errors_le (env st db evs c e r) :
    (afterClassify env st db evs c e r).errors ≤ st.errors + 1 := by
  unfold afterClassify
  split <;> simp

theorem cache_classification_processed (db id r) :
    (cache_classification db id r).processed = db.processed := rfl

theorem cache_classification_runs (db id r) :
    (cache_classification db id r).runs = db.runs := rfl

theorem mark_processed_cache (db id f t rid now) :
    (mark_processed db id f t rid now).cache = db.cache := rfl

theorem mark_processed_runs (db id f t rid now) :
    (mark_processed db id f t rid now).runs = db.runs := rfl

theorem complete_run_processed (db rid n now) :
    (complete_run db rid n now).processed = db.processed := rfl

theorem complete_run_cache (db rid n now) :
    (complete_run db rid n now).cache = db.cache := rfl

theorem start_run_processed (db rid now) : (start_run db rid now).processed = db.processed := rfl

theorem start_run_cache (db rid now) : (start_run db rid now).cache = db.cache := rfl

theorem cache_ynab_payees_processed (db ps sk now) :
    (cache_ynab_payees db ps sk now).processed = db.processed := by
  have key : ∀ (l : List PayeeRow) (d : DB), (l.foldl (fun (d : DB) (p : PayeeRow) =>
      { d with payees := d.payees.filter (fun q => q.payee_id ≠ p.payee_id) ++ [p] }) d).processed
        = d.processed := by
    intro l
    induction l with
    | nil => intro d; rfl
    | cons p rest ih => intro d; exact ih _
  unfold cache_ynab_payees
  simp only []
  exact key ps db

theorem cache_ynab_payees_cache (db ps sk now) :
    (cache_ynab_payees db ps sk now).cache = db.cache := by
  have key : ∀ (l : List PayeeRow) (d : DB), (l.foldl (fun (d : DB) (p : PayeeRow) =>
      { d with payees := d.payees.filter (fun q => q.payee_id ≠ p.payee_id) ++ [p] }) d).cache
        = d.cache := by
    intro l
    induction l with
    | nil => intro d; rfl
    | cons p rest ih => intro d; exact ih _
  unfold cache_ynab_payees
  simp only []
  exact key ps db

theorem cache_ynab_payees_runs (db ps sk now) :
    (cache_ynab_payees db ps sk now).runs = db.runs := by
  have key : ∀ (l : List PayeeRow) (d : DB), (l.foldl (fun (d : DB) (p : PayeeRow) =>
      { d with payees := d.payees.filter (fun q => q.payee_id ≠ p.payee_id) ++ [p] }) d).runs
        = d.runs := by
    intro l
    induction l with
    | nil => intro d; rfl
    | cons p rest ih => intro d; exact ih _
  unfold cache_ynab_payees
  simp only []
  exact key ps db

theorem refresh_processed (env db) :
    (refresh_payee_cache_if_needed env db).1.processed = db.processed := by
  unfold refresh_payee_cache_if_needed
  split
  · exact cache_ynab_payees_processed _ _ _ _
  · rfl

theorem refresh_cache (env db) :
    (refresh_payee_cache_if_needed env db).1.cache = db.cache := by
  unfold refresh_payee_cache_if_needed
  split
  · exact cache_ynab_payees_cache _ _ _ _
  · rfl

theorem refresh_runs (env db) :
    (refresh_payee_cache_if_needed env db).1.runs = db.runs := by
  unfold refresh_payee_cache_if_needed
  split
  · exact cache_ynab_payees_runs _ _ _ _
  · rfl

theorem refresh_events (env db) :
    (refresh_payee_cache_if_needed env db).2 = [] ∨
      (refresh_payee_cache_if_needed env db).2 = [Ev.payeeFetch] := by
  unfold refresh_payee_cache_if_needed
  split
  · right; rfl
  · left; rfl

/-! ## `processOne` case equations -/

theorem processOne_skip (env st e) (h : ¬ env.force = true ∧ is_processed st.db e.id = true) :
    processOne env st e = { st with skipped := st.skipped + 1 } := by
  unfold processOne
  rw [if_pos h]

theorem processOne_hit (env st e result)
    (hs : ¬ (¬ env.force = true ∧ is_processed st.db e.id = true))
    (hc : get_cached_classification st.db e.id = some result) :
    processOne env st e
      = afterClassify env st st.db (st.events ++ [Ev.cacheLookup e.id]) (st.cached + 1) e result := by
  unfold processOne
  rw [if_neg hs]
  simp only [hc]

theorem processOne_miss_ok (env st e text result)
    (hs : ¬ (¬ env.force = true ∧ is_processed st.db e.id = true))
    (hc : get_cached_classification st.db e.id = none)
    (hr : env.response e.id = Except.ok text)
    (hcl : classify_email text = Except.ok result) :
    processOne env st e
      = afterClassify env st (cache_classification st.db e.id result)
          (st.events ++ [Ev.cacheLookup e.id] ++ [Ev.classifierCall e.id]) st.cached e result := by
  unfold processOne
  rw [if_neg hs]
  simp only [hc, hr, hcl]

theorem processOne_processed (env st e) :
    (processOne env st e).db.processed = st.db.processed := by
  unfold processOne
  split
  · rfl
  · cases hc : get_cached_classification st.db e.id with
    | some result =>
      simp only [hc]
      rw [afterClassify_db]
    | none =>
      simp only [hc]
      cases hr : env.response e.id with
      | error u => simp only [hr]
      | ok text =>
        simp only [hr]
        cases hcl : classify_email text with
        | error u => simp only [hcl]
        | ok result =>
          simp only [hcl]
          rw [afterClassify_db]
          exact cache_classification_processed _ _ _

theorem processOne_runs (env st e) : (processOne env st e).db.runs = st.db.runs := by
  unfold processOne
  split
  · rfl
  · cases hc : get_cached_classification st.db e.id with
    | some result =>
      simp only [hc]
      rw [afterClassify_db]
    | none =>
      simp only [hc]
      cases hr : env.response e.id with
      | error u => simp only [hr]
      | ok text =>
        simp only [hr]
        cases hcl : classify_email text with
        | error u => simp only [hcl]
        | ok result =>
          simp only [hcl]
          rw [afterClassify_db]
          exact cache_classification_runs _ _ _

theorem processOne_events_mem (env st e ev) (h : ev ∈ (processOne env st e).events) :
    ev ∈ st.events ∨ ev = Ev.cacheLookup e.id ∨ ev = Ev.classifierCall e.id := by
  revert h
  unfold processOne
  split
  · intro h
    exact Or.inl h
  · cases hc : get_cached_classification st.db e.id with
    | some result =>
      simp only [hc]
      rw [afterClassify_events]
      intro h
      rcases List.mem_append.mp h with h1 | h1
      · exact Or.inl h1
      · simp at h1
        exact Or.inr (Or.inl h1)
    | none =>
      simp only [hc]
      cases hr : env.response e.id with
      | error u =>
        simp only [hr]
        intro h
        simp only [List.append_assoc, List.mem_append] at h
        rcases h with h1 | h1
        · exact Or.inl h1
        · simp at h1
          rcases h1 with h1 | h1
          · exact Or.inr (Or.inl h1)
          · exact Or.inr (Or.inr h1)
      | ok text =>
        simp only [hr]
        cases hcl : classify_email text with
        | error u =>
          simp only [hcl]
          intro h
          simp only [List.append_assoc, List.mem_append] at h
          rcases h with h1 | h1
          · exact Or.inl h1
          · simp at h1
            rcases h1 with h1 | h1
            · exact Or.inr (Or.inl h1)
            · exact Or.inr (Or.inr h1)
        | ok result =>
          simp only [hcl]
          rw [afterClassify_events]
          intro h
          simp only [List.append_assoc, List.mem_append] at h
          rcases h with h1 | h1
          · exact Or.inl h1
          · simp at h1
            rcases h1 with h1 | h1
            · exact Or.inr (Or.inl h1)
            · exact Or.inr (Or.inr h1)


theorem find?_filter_ne {α : Type} (l : List (String × α)) (id j : String) (h : j ≠ id) :
    (l.filter (fun kv => kv.1 ≠ id)).find? (fun kv => kv.1 = j)
      = l.find? (fun kv => kv.1 = j) := by
  induction l with
  | nil => rfl
  | cons kv rest ih =>
    by_cases hk : kv.1 = id
    · rw [List.filter_cons, if_neg (by simp [hk]),
          List.find?_cons_of_neg _ (by simp [hk]; exact fun he => h he.symm)]
      exact ih
    · rw [List.filter_cons, if_pos (by simp [hk])]
      by_cases hj : kv.1 = j
      · rw [List.find?_cons_of_pos _ (by simp [hj]), List.find?_cons_of_pos _ (by simp [hj])]
      · rw [List.find?_cons_of_neg _ (by simp [hj]), List.find?_cons_of_neg _ (by simp [hj])]
        exact ih

theorem get_cached_upsert_self (db : DB) (id : String) (r : ClassificationResult) :
    get_cached_classification (cache_classification db id r) id = some r := by
  unfold get_cached_classification cache_classification
  simp only []
  rw [List.find?_append]
  have h1 : (db.cache.filter (fun kv => kv.1 ≠ id)).find? (fun kv => kv.1 = id) = none := by
    rw [List.find?_eq_none]
    intro kv hkv
    have h2 := (List.mem_filter.mp hkv).2
    simp at h2 ⊢
    exact h2
  rw [h1]
  rw [List.find?_cons_of_pos _ (by simp)]
  rfl

theorem get_cached_upsert_other (db : DB) (id j : String) (r : ClassificationResult)
    (h : j ≠ id) :
    get_cached_classification (cache_classification db id r) j
      = get_cached_classification db j := by
  unfold get_cached_classification cache_classification
  simp only []
  rw [List.find?_append, find?_filter_ne db.cache id j h]
  cases hf : db.cache.find? (fun kv => kv.1 = j) with
  | some kv => rfl
  | none =>
    simp only [Option.none_or]
    rw [List.find?_cons_of_neg _ (by
      simp only [decide_eq_true_eq]
      exact fun he => h he.symm), List.find?_nil]


theorem filter_upsert_nil (l : List PRow) (id : String) :
    (l.filter (fun p => p.email_id ≠ id)).filter (fun p => p.email_id = id) = [] := by
  rw [List.filter_eq_nil_iff]
  intro p hp
  have h2 := (List.mem_filter.mp hp).2
  simp at h2 ⊢
  exact h2

theorem rowsFor_mark_self (db : DB) (id : String) (f : Bool) (t rid : Option String) (now : String) :
    rowsFor id (mark_processed db id f t rid now) = [⟨id, now, f, t, rid⟩] := by
  unfold rowsFor mark_processed
  simp only []
  rw [List.filter_append, filter_upsert_nil]
  simp

theorem rowsFor_mark_other (db : DB) (id j : String) (f : Bool) (t rid : Option String)
    (now : String) (h : j ≠ id) :
    rowsFor j (mark_processed db id f t rid now) = rowsFor j db := by
  unfold rowsFor mark_processed
  simp only []
  rw [List.filter_append]
  have h2 : ([(⟨id, now, f, t, rid⟩ : PRow)].filter (fun p => p.email_id = j)) = [] := by
    simp [Ne.symm h]
  rw [h2, List.append_nil]
  induction db.processed with
  | nil => rfl
  | cons p rest ih =>
    by_cases hp : p.email_id = id
    · rw [List.filter_cons, if_neg (by simp [hp]), List.filter_cons,
          if_neg (by simp [hp]; exact fun he => h he.symm), ih]
    · rw [List.filter_cons, if_pos (by simp [hp])]
      by_cases hj : p.email_id = j
      · rw [List.filter_cons, if_pos (by simp [hj]), List.filter_cons, if_pos (by simp [hj]), ih]
      · rw [List.filter_cons, if_neg (by simp [hj]), List.filter_cons, if_neg (by simp [hj]), ih]

theorem is_processed_mark_self (db : DB) (id : String) (f : Bool) (t rid : Option String)
    (now : String) : is_processed (mark_processed db id f t rid now) id = true := by
  unfold is_processed mark_processed
  simp

theorem is_processed_mark_mono (db : DB) (id j : String) (f : Bool) (t rid : Option String)
    (now : String) (h : is_processed db j = true) :
    is_processed (mark_processed db id f t rid now) j = true := by
  by_cases hj : j = id
  · subst hj
    exact is_processed_mark_self db j f t rid now
  · unfold is_processed mark_processed at *
    simp only [List.any_eq_true] at h ⊢
    obtain ⟨p, hp, he⟩ := h
    refine ⟨p, ?_, he⟩
    simp only [List.mem_append]
    left
    rw [List.mem_filter]
    refine ⟨hp, ?_⟩
    simp at he ⊢
    rw [he]
    exact hj

theorem tidRows_filter_le (l : List PRow) (q : PRow → Bool) (id : String) :
    ((l.filter (fun p => p.email_id ≠ id)).filter q).length ≤ (l.filter q).length :=
  List.Sublist.length_le (List.Sublist.filter q (List.filter_sublist l))

theorem tidRows_mark_none (db : DB) (r id : String) (f : Bool) (rid : Option String)
    (now : String) :
    (tidRows r (mark_processed db id f none rid now)).length ≤ (tidRows r db).length := by
  unfold tidRows mark_processed
  simp only []
  rw [List.filter_append]
  have h2 : ([(⟨id, now, f, none, rid⟩ : PRow)].filter
      (fun p => p.run_id = some r ∧ p.ynab_transaction_id ≠ none)) = [] := by
    simp
  rw [h2, List.append_nil]
  exact tidRows_filter_le db.processed _ id

theorem tidRows_mark_le (db : DB) (r id : String) (f : Bool) (t rid : Option String)
    (now : String) :
    (tidRows r (mark_processed db id f t rid now)).length ≤ (tidRows r db).length + 1 := by
  unfold tidRows mark_processed
  simp only []
  rw [List.filter_append, List.length_append]
  have h2 : ([(⟨id, now, f, t, rid⟩ : PRow)].filter
      (fun p => p.run_id = some r ∧ p.ynab_transaction_id ≠ none)).length ≤ 1 := by
    rw [List.filter_cons]
    split <;> simp
  have h3 := tidRows_filter_le db.processed
    (fun p => p.run_id = some r ∧ p.ynab_transaction_id ≠ none) id
  omega

theorem run_rows_mark_self (db : DB) (id : String) (f : Bool) (t : Option String) (r now : String)
    (p : PRow) (hp : p ∈ (mark_processed db id f t (some r) now).processed)
    (he : p.email_id = id) : p.run_id = some r := by
  unfold mark_processed at hp
  simp only [List.mem_append] at hp
  rcases hp with hp | hp
  · have h2 := (List.mem_filter.mp hp).2
    simp at h2
    exact absurd he h2
  · simp at hp
    rw [hp]

theorem run_rows_mark_other (db : DB) (id j : String) (f : Bool) (t : Option String)
    (r now : String) (rid : Option String) (hj : j ≠ id)
    (hP : ∀ p ∈ db.processed, p.email_id = id → p.run_id = some r)
    (p : PRow) (hp : p ∈ (mark_processed db j f t rid now).processed)
    (he : p.email_id = id) : p.run_id = some r := by
  unfold mark_processed at hp
  simp only [List.mem_append] at hp
  rcases hp with hp | hp
  · exact hP p (List.mem_filter.mp hp).1 he
  · simp at hp
    rw [hp] at he
    simp at he
    exact absurd he.symm (fun hc => hj hc.symm)


theorem scan_processed (env : RunEnv) (emails : List Email) :
    ∀ st, ((emails.foldl (processOne env) st).db.processed = st.db.processed) := by
  induction emails with
  | nil => intro st; rfl
  | cons e rest ih =>
    intro st
    rw [List.foldl_cons, ih, processOne_processed]

theorem scan_runs (env : RunEnv) (emails : List Email) :
    ∀ st, ((emails.foldl (processOne env) st).db.runs = st.db.runs) := by
  induction emails with
  | nil => intro st; rfl
  | cons e rest ih =>
    intro st
    rw [List.foldl_cons, ih, processOne_runs]

theorem scan_events_mem (env : RunEnv) (emails : List Email) :
    ∀ st ev, ev ∈ (emails.foldl (processOne env) st).events →
      ev ∈ st.events ∨ ∃ e, e ∈ emails ∧ (ev = Ev.cacheLookup e.id ∨ ev = Ev.classifierCall e.id) := by
  induction emails with
  | nil => intro st ev h; exact Or.inl h
  | cons e rest ih =>
    intro st ev h
    rw [List.foldl_cons] at h
    rcases ih (processOne env st e) ev h with h1 | ⟨e', he', hor⟩
    · rcases processOne_events_mem env st e ev h1 with h2 | h2 | h2
      · exact Or.inl h2
      · exact Or.inr ⟨e, List.mem_cons_self e rest, Or.inl h2⟩
      · exact Or.inr ⟨e, List.mem_cons_self e rest, Or.inr h2⟩
    · exact Or.inr ⟨e', List.mem_cons_of_mem e he', hor⟩

theorem processOne_cacheHas (env st e id) (h : cacheHas st.db id = true) :
    cacheHas (processOne env st e).db id = true := by
  unfold processOne
  split
  · exact h
  · cases hc : get_cached_classification st.db e.id with
    | some result =>
      simp only [hc]
      rw [cacheHas, afterClassify_db]
      exact h
    | none =>
      simp only [hc]
      cases hr : env.response e.id with
      | error u => simp only [hr]; exact h
      | ok text =>
        simp only [hr]
        cases hcl : classify_email text with
        | error u => simp only [hcl]; exact h
        | ok result =>
          simp only [hcl]
          rw [cacheHas, afterClassify_db]
          by_cases hid : id = e.id
          · subst hid
            rw [get_cached_upsert_self]
            rfl
          · rw [get_cached_upsert_other _ _ _ _ hid]
            exact h

theorem scan_cached_no_call (env : RunEnv) (emails : List Email) :
    ∀ st id, cacheHas st.db id = true → Ev.classifierCall id ∉ st.events →
      cacheHas ((emails.foldl (processOne env) st)).db id = true
        ∧ Ev.classifierCall id ∉ (emails.foldl (processOne env) st).events := by
  induction emails with
  | nil => intro st id h1 h2; exact ⟨h1, h2⟩
  | cons e rest ih =>
    intro st id h1 h2
    rw [List.foldl_cons]
    refine ih (processOne env st e) id (processOne_cacheHas env st e id h1) ?_
    intro hin
    rcases processOne_events_mem env st e _ hin with h3 | h3 | h3
    · exact h2 h3
    · cases h3
    · -- ev = classifierCall e.id means id = e.id, so the step hit the cache
      have hid : id = e.id := by
        injection h3
      subst hid
      revert hin
      unfold processOne
      split
      · intro hin
        exact h2 hin
      · cases hc : get_cached_classification st.db e.id with
        | some result =>
          simp only [hc]
          rw [afterClassify_events]
          intro hin
          rcases List.mem_append.mp hin with h4 | h4
          · exact h2 h4
          · simp at h4
        | none =>
          intro _
          rw [cacheHas, hc] at h1
          cases h1


theorem mnr_cache (rid now : String) (ids : List String) :
    ∀ a, (markNonReceipts rid now a ids).1.cache = a.1.cache := by
  induction ids with
  | nil => intro a; rfl
  | cons id rest ih =>
    intro a
    unfold markNonReceipts at ih ⊢
    rw [List.foldl_cons, ih]
    rfl

theorem mnr_runs (rid now : String) (ids : List String) :
    ∀ a, (markNonReceipts rid now a ids).1.runs = a.1.runs := by
  induction ids with
  | nil => intro a; rfl
  | cons id rest ih =>
    intro a
    unfold markNonReceipts at ih ⊢
    rw [List.foldl_cons, ih]
    rfl

theorem mnr_events_mono (rid now : String) (ids : List String) :
    ∀ a ev, ev ∈ a.2 → ev ∈ (markNonReceipts rid now a ids).2 := by
  induction ids with
  | nil => intro a ev h; exact h
  | cons id rest ih =>
    intro a ev h
    unfold markNonReceipts at ih ⊢
    rw [List.foldl_cons]
    exact ih _ ev (List.mem_append.mpr (Or.inl h))

theorem mnr_events_mem (rid now : String) (ids : List String) :
    ∀ a ev, ev ∈ (markNonReceipts rid now a ids).2 →
      ev ∈ a.2 ∨ ∃ id ∈ ids, ev = Ev.mark id := by
  induction ids with
  | nil => intro a ev h; exact Or.inl h
  | cons id rest ih =>
    intro a ev h
    unfold markNonReceipts at ih h
    rw [List.foldl_cons] at h
    rcases ih _ ev h with h1 | ⟨j, hj, hev⟩
    · rcases List.mem_append.mp h1 with h2 | h2
      · exact Or.inl h2
      · simp at h2
        exact Or.inr ⟨id, List.mem_cons_self id rest, h2⟩
    · exact Or.inr ⟨j, List.mem_cons_of_mem id hj, hev⟩

theorem mnr_is_processed_mono (rid now : String) (ids : List String) :
    ∀ a j, is_processed a.1 j = true → is_processed (markNonReceipts rid now a ids).1 j = true := by
  induction ids with
  | nil => intro a j h; exact h
  | cons id rest ih =>
    intro a j h
    unfold markNonReceipts at ih ⊢
    rw [List.foldl_cons]
    exact ih _ j (is_processed_mark_mono _ _ _ _ _ _ _ h)

theorem mnr_marks (rid now : String) (ids : List String) :
    ∀ a id, id ∈ ids → is_processed (markNonReceipts rid now a ids).1 id = true := by
  induction ids with
  | nil => intro a id h; cases h
  | cons id0 rest ih =>
    intro a id h
    unfold markNonReceipts at ih ⊢
    rw [List.foldl_cons]
    rcases List.mem_cons.mp h with h1 | h1
    · subst h1
      exact mnr_is_processed_mono rid now rest _ id (is_processed_mark_self _ _ _ _ _ _)
    · exact ih _ id h1

theorem mnr_tid_le (rid now r : String) (ids : List String) :
    ∀ a, (tidRows r (markNonReceipts rid now a ids).1).length ≤ (tidRows r a.1).length := by
  induction ids with
  | nil => intro a; exact le_refl _
  | cons id rest ih =>
    intro a
    unfold markNonReceipts at ih ⊢
    rw [List.foldl_cons]
    exact le_trans (ih _) (tidRows_mark_none _ _ _ _ _ _)

theorem mnr_runP (rid now r : String) (ids : List String) (hr : rid = r) :
    ∀ a id, (Ev.mark id ∈ a.2 → ∀ p ∈ a.1.processed, p.email_id = id → p.run_id = some r) →
      Ev.mark id ∈ (markNonReceipts rid now a ids).2 →
        ∀ p ∈ (markNonReceipts rid now a ids).1.processed, p.email_id = id → p.run_id = some r := by
  subst hr
  induction ids with
  | nil => intro a id h hm; exact h hm
  | cons id0 rest ih =>
    intro a id h hm
    unfold markNonReceipts at ih hm ⊢
    rw [List.foldl_cons] at hm ⊢
    by_cases hid : id0 = id
    · refine ih _ id (fun _ => ?_) hm
      intro p hp he
      rw [← hid] at he
      exact run_rows_mark_self a.1 id0 false none rid now p hp he
    · refine ih _ id (fun hm2 => ?_) hm
      have h3 : Ev.mark id ∈ a.2 := by
        rcases List.mem_append.mp hm2 with h4 | h4
        · exact h4
        · simp at h4
          exact absurd h4.symm hid
      exact fun p hp he =>
        run_rows_mark_other a.1 id id0 false none rid now (some rid) hid (h h3) p hp he

theorem mnr_rowsFor (rid now : String) (ids : List String) :
    ∀ a id, rowsFor id (markNonReceipts rid now a ids).1
      = if id ∈ ids then [⟨id, now, false, none, some rid⟩] else rowsFor id a.1 := by
  induction ids with
  | nil =>
    intro a id
    rw [if_neg (List.not_mem_nil id)]
    rfl
  | cons id0 rest ih =>
    intro a id
    unfold markNonReceipts at ih ⊢
    rw [List.foldl_cons]
    by_cases hid : id ∈ rest
    · rw [ih _ id, if_pos hid, if_pos (List.mem_cons_of_mem id0 hid)]
    · by_cases h0 : id0 = id
      · rw [ih _ id, if_neg hid, if_pos (by rw [h0]; exact List.mem_cons_self id rest)]
        subst h0
        exact rowsFor_mark_self a.1 id0 false none (some rid) now
      · rw [ih _ id, if_neg hid, if_neg (by
          intro hc
          rcases List.mem_cons.mp hc with hc1 | hc1
          · exact h0 hc1.symm
          · exact hid hc1)]
        exact rowsFor_mark_other a.1 id0 id false none (some rid) now
          (fun hc => h0 hc.symm)

theorem mdes_cache (rid now : String) (ts : List PendingTransaction) :
    ∀ a, (markDeselected rid now a ts).1.cache = a.1.cache := by
  induction ts with
  | nil => intro a; rfl
  | cons t rest ih =>
    intro a
    unfold markDeselected at ih ⊢
    rw [List.foldl_cons, ih]
    rfl

theorem mdes_runs (rid now : String) (ts : List PendingTransaction) :
    ∀ a, (markDeselected rid now a ts).1.runs = a.1.runs := by
  induction ts with
  | nil => intro a; rfl
  | cons t rest ih =>
    intro a
    unfold markDeselected at ih ⊢
    rw [List.foldl_cons, ih]
    rfl

theorem mdes_events_mono (rid now : String) (ts : List PendingTransaction) :
    ∀ a ev, ev ∈ a.2 → ev ∈ (markDeselected rid now a ts).2 := by
  induction ts with
  | nil => intro a ev h; exact h
  | cons t rest ih =>
    intro a ev h
    unfold markDeselected at ih ⊢
    rw [List.foldl_cons]
    exact ih _ ev (List.mem_append.mpr (Or.inl h))

theorem mdes_events_mem (rid now : String) (ts : List PendingTransaction) :
    ∀ a ev, ev ∈ (markDeselected rid now a ts).2 →
      ev ∈ a.2 ∨ ∃ t ∈ ts, ev = Ev.mark t.email_id := by
  induction ts with
  | nil => intro a ev h; exact Or.inl h
  | cons t rest ih =>
    intro a ev h
    unfold markDeselected at ih h
    rw [List.foldl_cons] at h
    rcases ih _ ev h with h1 | ⟨j, hj, hev⟩
    · rcases List.mem_append.mp h1 with h2 | h2
      · exact Or.inl h2
      · simp at h2
        exact Or.inr ⟨t, List.mem_cons_self t rest, h2⟩
    · exact Or.inr ⟨j, List.mem_cons_of_mem t hj, hev⟩

theorem mdes_is_processed_mono (rid now : String) (ts : List PendingTransaction) :
    ∀ a j, is_processed a.1 j = true → is_processed (markDeselected rid now a ts).1 j = true := by
  induction ts with
  | nil => intro a j h; exact h
  | cons t rest ih =>
    intro a j h
    unfold markDeselected at ih ⊢
    rw [List.foldl_cons]
    exact ih _ j (is_processed_mark_mono _ _ _ _ _ _ _ h)

theorem mdes_tid_le (rid now r : String) (ts : List PendingTransaction) :
    ∀ a, (tidRows r (markDeselected rid now a ts).1).length ≤ (tidRows r a.1).length := by
  induction ts with
  | nil => intro a; exact le_refl _
  | cons t rest ih =>
    intro a
    unfold markDeselected at ih ⊢
    rw [List.foldl_cons]
    exact le_trans (ih _) (tidRows_mark_none _ _ _ _ _ _)

theorem mdes_runP (rid now r : String) (ts : List PendingTransaction) (hr : rid = r) :
    ∀ a id, (Ev.mark id ∈ a.2 → ∀ p ∈ a.1.processed, p.email_id = id → p.run_id = some r) →
      Ev.mark id ∈ (markDeselected rid now a ts).2 →
        ∀ p ∈ (markDeselected rid now a ts).1.processed, p.email_id = id → p.run_id = some r := by
  subst hr
  induction ts with
  | nil => intro a id h hm; exact h hm
  | cons t rest ih =>
    intro a id h hm
    unfold markDeselected at ih hm ⊢
    rw [List.foldl_cons] at hm ⊢
    by_cases hid : t.email_id = id
    · refine ih _ id (fun _ => ?_) hm
      intro p hp he
      rw [← hid] at he
      exact run_rows_mark_self a.1 t.email_id true none rid now p hp he
    · refine ih _ id (fun hm2 => ?_) hm
      have h3 : Ev.mark id ∈ a.2 := by
        rcases List.mem_append.mp hm2 with h4 | h4
        · exact h4
        · simp at h4
          exact absurd h4.symm hid
      exact fun p hp he =>
        run_rows_mark_other a.1 id t.email_id true none rid now (some rid) hid (h h3) p hp he

theorem mdes_rowsFor_other (rid now : String) (ts : List PendingTransaction) :
    ∀ a id, (∀ t ∈ ts, t.email_id ≠ id) →
      rowsFor id (markDeselected rid now a ts).1 = rowsFor id a.1 := by
  induction ts with
  | nil => intro a id _; rfl
  | cons t rest ih =>
    intro a id h
    unfold markDeselected at ih ⊢
    rw [List.foldl_cons]
    rw [ih _ id (fun t' ht' => h t' (List.mem_cons_of_mem t ht'))]
    exact rowsFor_mark_other a.1 t.email_id id true none (some rid) now
      (fun hc => h t (List.mem_cons_self t rest) hc.symm)


theorem ssf_cache (env : RunEnv) (txns : List PendingTransaction) :
    ∀ st : SchedSt, ((txns.foldl (submitScheduledOne env) st).db.cache = st.db.cache) := by
  induction txns with
  | nil => intro st; rfl
  | cons t rest ih =>
    intro st
    rw [List.foldl_cons, ih]
    unfold submitScheduledOne
    cases env.scheduledResponse t <;> rfl

theorem ssf_runs (env : RunEnv) (txns : List PendingTransaction) :
    ∀ st : SchedSt, ((txns.foldl (submitScheduledOne env) st).db.runs = st.db.runs) := by
  induction txns with
  | nil => intro st; rfl
  | cons t rest ih =>
    intro st
    rw [List.foldl_cons, ih]
    unfold submitScheduledOne
    cases env.scheduledResponse t <;> rfl

theorem ssf_events_mono (env : RunEnv) (txns : List PendingTransaction) :
    ∀ (st : SchedSt) ev, ev ∈ st.events → ev ∈ (txns.foldl (submitScheduledOne env) st).events := by
  induction txns with
  | nil => intro st ev h; exact h
  | cons t rest ih =>
    intro st ev h
    rw [List.foldl_cons]
    refine ih _ ev ?_
    unfold submitScheduledOne
    cases env.scheduledResponse t <;> simp [h]

theorem ssf_events_mem (env : RunEnv) (txns : List PendingTransaction) :
    ∀ (st : SchedSt) ev, ev ∈ (txns.foldl (submitScheduledOne env) st).events →
      ev ∈ st.events ∨ ∃ t ∈ txns, ev = Ev.scheduledSubmit t.email_id ∨ ev = Ev.mark t.email_id := by
  induction txns with
  | nil => intro st ev h; exact Or.inl h
  | cons t rest ih =>
    intro st ev h
    rw [List.foldl_cons] at h
    rcases ih _ ev h with h1 | ⟨t', ht', hev⟩
    · revert h1
      unfold submitScheduledOne
      cases env.scheduledResponse t with
      | ok sid =>
        intro h1
        simp only [List.append_assoc, List.mem_append] at h1
        rcases h1 with h2 | h2
        · exact Or.inl h2
        · simp at h2
          rcases h2 with h2 | h2
          · exact Or.inr ⟨t, List.mem_cons_self t rest, Or.inl h2⟩
          · exact Or.inr ⟨t, List.mem_cons_self t rest, Or.inr h2⟩
      | error u =>
        intro h1
        rcases List.mem_append.mp h1 with h2 | h2
        · exact Or.inl h2
        · simp at h2
          exact Or.inr ⟨t, List.mem_cons_self t rest, Or.inl h2⟩
    · exact Or.inr ⟨t', List.mem_cons_of_mem t ht', hev⟩

theorem ssf_tid (env : RunEnv) (r : String) (txns : List PendingTransaction) :
    ∀ st : SchedSt,
      (tidRows r (txns.foldl (submitScheduledOne env) st).db).length + st.scheduled_added
        ≤ (tidRows r st.db).length + (txns.foldl (submitScheduledOne env) st).scheduled_added := by
  induction txns with
  | nil => intro st; exact le_refl _
  | cons t rest ih =>
    intro st
    rw [List.foldl_cons]
    have h1 := ih (submitScheduledOne env st t)
    revert h1
    unfold submitScheduledOne
    cases env.scheduledResponse t with
    | ok sid =>
      intro h1
      simp only [] at h1 ⊢
      have h2 := tidRows_mark_le st.db r t.email_id true (some sid) (some env.run_id) env.now
      omega
    | error u =>
      intro h1
      simp only [] at h1 ⊢
      omega

theorem ssf_is_processed_mono (env : RunEnv) (txns : List PendingTransaction) :
    ∀ (st : SchedSt) j, is_processed st.db j = true →
      is_processed (txns.foldl (submitScheduledOne env) st).db j = true := by
  induction txns with
  | nil => intro st j h; exact h
  | cons t rest ih =>
    intro st j h
    rw [List.foldl_cons]
    refine ih _ j ?_
    unfold submitScheduledOne
    cases env.scheduledResponse t with
    | ok sid => exact is_processed_mark_mono _ _ _ _ _ _ _ h
    | error u => exact h

theorem ssf_runP (env : RunEnv) (r : String) (hr : env.run_id = r) (txns : List PendingTransaction) :
    ∀ (st : SchedSt) id,
      (Ev.mark id ∈ st.events → ∀ p ∈ st.db.processed, p.email_id = id → p.run_id = some r) →
      Ev.mark id ∈ (txns.foldl (submitScheduledOne env) st).events →
        ∀ p ∈ (txns.foldl (submitScheduledOne env) st).db.processed,
          p.email_id = id → p.run_id = some r := by
  induction txns with
  | nil => intro st id h hm; exact h hm
  | cons t rest ih =>
    intro st id h hm
    rw [List.foldl_cons] at hm ⊢
    refine ih _ id ?_ hm
    unfold submitScheduledOne
    cases env.scheduledResponse t with
    | ok sid =>
      simp only []
      by_cases hid : t.email_id = id
      · intro _ p hp he
        rw [← hid] at he
        rw [← hr]
        exact run_rows_mark_self st.db t.email_id true (some sid) env.run_id env.now p hp he
      · intro hm2 p hp he
        have h3 : Ev.mark id ∈ st.events := by
          simp only [List.append_assoc, List.mem_append, List.mem_cons,
            List.not_mem_nil, or_false] at hm2
          rcases hm2 with h4 | h4 | h4
          · exact h4
          · exact absurd h4 (by simp)
          · injection h4 with h5
            exact absurd h5.symm hid
        exact run_rows_mark_other st.db id t.email_id true (some sid) r env.now
          (some env.run_id) hid (h h3) p hp he
    | error u =>
      simp only []
      intro hm2 p hp he
      have h3 : Ev.mark id ∈ st.events := by
        rcases List.mem_append.mp hm2 with h4 | h4
        · exact h4
        · exact absurd hm2 (by intro _; exact absurd h4 (by simp))
      exact h h3 p hp he

theorem ssf_rowsFor_other (env : RunEnv) (txns : List PendingTransaction) :
    ∀ (st : SchedSt) id, (∀ t ∈ txns, t.email_id ≠ id) →
      rowsFor id (txns.foldl (submitScheduledOne env) st).db = rowsFor id st.db := by
  induction txns with
  | nil => intro st id _; rfl
  | cons t rest ih =>
    intro st id h
    rw [List.foldl_cons]
    rw [ih _ id (fun t' ht' => h t' (List.mem_cons_of_mem t ht'))]
    unfold submitScheduledOne
    cases env.scheduledResponse t with
    | ok sid =>
      exact rowsFor_mark_other st.db t.email_id id true (some sid) (some env.run_id) env.now
        (fun hc => h t (List.mem_cons_self t rest) hc.symm)
    | error u => rfl


theorem mbr_aux (created_ids dup_ids : List String) (pts : List PendingTransaction) :
    ∀ (acc : List (String × Option String × Bool) × Nat) (r : String × Option String × Bool),
      r ∈ (pts.foldl
        (fun (acc : List (String × Option String × Bool) × Nat) pt =>
          let isDup := match pt.import_id with
            | some iid => dup_ids.contains iid
            | none => false
          if isDup then (acc.1 ++ [(pt.email_id, none, true)], acc.2)
          else (acc.1 ++ [(pt.email_id, created_ids[acc.2]?, false)], acc.2 + 1)) acc).1 →
      r ∈ acc.1 ∨ (r.1 ∈ pts.map (fun t => t.email_id) ∧ (r.2.2 = true → r.2.1 = none)) := by
  induction pts with
  | nil => intro acc r h; exact Or.inl h
  | cons pt rest ih =>
    intro acc r h
    rw [List.foldl_cons] at h
    rcases ih _ r h with h1 | ⟨h2, h3⟩
    · by_cases hd : (match pt.import_id with
        | some iid => dup_ids.contains iid
        | none => false) = true
      · rw [if_pos hd] at h1
        rcases List.mem_append.mp h1 with h4 | h4
        · exact Or.inl h4
        · rcases List.mem_singleton.mp h4 with rfl
          exact Or.inr ⟨List.mem_cons_self _ _, fun _ => rfl⟩
      · rw [if_neg hd] at h1
        rcases List.mem_append.mp h1 with h4 | h4
        · exact Or.inl h4
        · rcases List.mem_singleton.mp h4 with rfl
          exact Or.inr ⟨List.mem_cons_self _ _, fun hc => absurd hc (by simp)⟩
    · exact Or.inr ⟨List.mem_cons_of_mem _ h2, h3⟩

theorem mbr_mem (pts : List PendingTransaction) (created_ids dup_ids : List String)
    (r : String × Option String × Bool) (h : r ∈ map_batch_results pts created_ids dup_ids) :
    r.1 ∈ pts.map (fun t => t.email_id) ∧ (r.2.2 = true → r.2.1 = none) := by
  unfold map_batch_results at h
  rcases mbr_aux created_ids dup_ids pts ([], 0) r h with h1 | h1
  · exact absurd h1 (List.not_mem_nil r)
  · exact h1

theorem inner_cache (env : RunEnv) (results : List (String × Option String × Bool)) :
    ∀ st : BatchSt,
      ((results.foldl
        (fun (acc : BatchSt) r =>
          { db := mark_processed acc.db r.1 true r.2.1 (some env.run_id) env.now,
            events := acc.events ++ [Ev.mark r.1],
            receipts_added := if r.2.2 then acc.receipts_added else acc.receipts_added + 1,
            duplicates := if r.2.2 then acc.duplicates + 1 else acc.duplicates,
            errors := acc.errors }) st).db.cache = st.db.cache) := by
  induction results with
  | nil => intro st; rfl
  | cons r rest ih =>
    intro st
    rw [List.foldl_cons, ih]
    exact mark_processed_cache st.db r.1 true r.2.1 (some env.run_id) env.now

theorem inner_runs (env : RunEnv) (results : List (String × Option String × Bool)) :
    ∀ st : BatchSt,
      ((results.foldl
        (fun (acc : BatchSt) r =>
          { db := mark_processed acc.db r.1 true r.2.1 (some env.run_id) env.now,
            events := acc.events ++ [Ev.mark r.1],
            receipts_added := if r.2.2 then acc.receipts_added else acc.receipts_added + 1,
            duplicates := if r.2.2 then acc.duplicates + 1 else acc.duplicates,
            errors := acc.errors }) st).db.runs = st.db.runs) := by
  induction results with
  | nil => intro st; rfl
  | cons r rest ih =>
    intro st
    rw [List.foldl_cons, ih]
    exact mark_processed_runs st.db r.1 true r.2.1 (some env.run_id) env.now

theorem inner_errors (env : RunEnv) (results : List (String × Option String × Bool)) :
    ∀ st : BatchSt,
      ((results.foldl
        (fun (acc : BatchSt) r =>
          { db := mark_processed acc.db r.1 true r.2.1 (some env.run_id) env.now,
            events := acc.events ++ [Ev.mark r.1],
            receipts_added := if r.2.2 then acc.receipts_added else acc.receipts_added + 1,
            duplicates := if r.2.2 then acc.duplicates + 1 else acc.duplicates,
            errors := acc.errors }) st).errors = st.errors) := by
  induction results with
  | nil => intro st; rfl
  | cons r rest ih => intro st; rw [List.foldl_cons, ih]

theorem inner_events_mono (env : RunEnv) (results : List (String × Option String × Bool)) :
    ∀ (st : BatchSt) ev, ev ∈ st.events →
      ev ∈ ((results.foldl
        (fun (acc : BatchSt) r =>
          { db := mark_processed acc.db r.1 true r.2.1 (some env.run_id) env.now,
            events := acc.events ++ [Ev.mark r.1],
            receipts_added := if r.2.2 then acc.receipts_added else acc.receipts_added + 1,
            duplicates := if r.2.2 then acc.duplicates + 1 else acc.duplicates,
            errors := acc.errors }) st).events) := by
  induction results with
  | nil => intro st ev h; exact h
  | cons r rest ih =>
    intro st ev h
    rw [List.foldl_cons]
    exact ih _ ev (List.mem_append.mpr (Or.inl h))

theorem inner_events_mem (env : RunEnv) (results : List (String × Option String × Bool)) :
    ∀ (st : BatchSt) ev,
      ev ∈ ((results.foldl
        (fun (acc : BatchSt) r =>
          { db := mark_processed acc.db r.1 true r.2.1 (some env.run_id) env.now,
            events := acc.events ++ [Ev.mark r.1],
            receipts_added := if r.2.2 then acc.receipts_added else acc.receipts_added + 1,
            duplicates := if r.2.2 then acc.duplicates + 1 else acc.duplicates,
            errors := acc.errors }) st).events) →
      ev ∈ st.events ∨ ∃ r ∈ results, ev = Ev.mark r.1 := by
  induction results with
  | nil => intro st ev h; exact Or.inl h
  | cons r rest ih =>
    intro st ev h
    rw [List.foldl_cons] at h
    rcases ih _ ev h with h1 | ⟨r', hr', hev⟩
    · rcases List.mem_append.mp h1 with h2 | h2
      · exact Or.inl h2
      · exact Or.inr ⟨r, List.mem_cons_self _ _, List.mem_singleton.mp h2⟩
    · exact Or.inr ⟨r', List.mem_cons_of_mem _ hr', hev⟩

theorem inner_tid (env : RunEnv) (r : String) (results : List (String × Option String × Bool)) :
    ∀ st : BatchSt, (∀ x ∈ results, x.2.2 = true → x.2.1 = none) →
      (tidRows r ((results.foldl
        (fun (acc : BatchSt) x =>
          { db := mark_processed acc.db x.1 true x.2.1 (some env.run_id) env.now,
            events := acc.events ++ [Ev.mark x.1],
            receipts_added := if x.2.2 then acc.receipts_added else acc.receipts_added + 1,
            duplicates := if x.2.2 then acc.duplicates + 1 else acc.duplicates,
            errors := acc.errors }) st).db)).length + st.receipts_added
      ≤ (tidRows r st.db).length + (results.foldl
        (fun (acc : BatchSt) x =>
          { db := mark_processed acc.db x.1 true x.2.1 (some env.run_id) env.now,
            events := acc.events ++ [Ev.mark x.1],
            receipts_added := if x.2.2 then acc.receipts_added else acc.receipts_added + 1,
            duplicates := if x.2.2 then acc.duplicates + 1 else acc.duplicates,
            errors := acc.errors }) st).receipts_added := by
  induction results with
  | nil => intro st _; exact le_refl _
  | cons x rest ih =>
    intro st hd
    rw [List.foldl_cons]
    have h1 := ih
      ({ db := mark_processed st.db x.1 true x.2.1 (some env.run_id) env.now,
         events := st.events ++ [Ev.mark x.1],
         receipts_added := if x.2.2 then st.receipts_added else st.receipts_added + 1,
         duplicates := if x.2.2 then st.duplicates + 1 else st.duplicates,
         errors := st.errors })
      (fun y hy => hd y (List.mem_cons_of_mem x hy))
    by_cases hx : x.2.2 = true
    · have hn : x.2.1 = none := hd x (List.mem_cons_self _ _) hx
      simp only [if_pos hx, hn] at h1 ⊢
      have h2 := tidRows_mark_none st.db r x.1 true (some env.run_id) env.now
      omega
    · simp only [if_neg hx] at h1 ⊢
      have h2 := tidRows_mark_le st.db r x.1 true x.2.1 (some env.run_id) env.now
      omega

theorem inner_is_processed_mono (env : RunEnv) (results : List (String × Option String × Bool)) :
    ∀ (st : BatchSt) j, is_processed st.db j = true →
      is_processed ((results.foldl
        (fun (acc : BatchSt) r =>
          { db := mark_processed acc.db r.1 true r.2.1 (some env.run_id) env.now,
            events := acc.events ++ [Ev.mark r.1],
            receipts_added := if r.2.2 then acc.receipts_added else acc.receipts_added + 1,
            duplicates := if r.2.2 then acc.duplicates + 1 else acc.duplicates,
            errors := acc.errors }) st).db) j = true := by
  induction results with
  | nil => intro st j h; exact h
  | cons r rest ih =>
    intro st j h
    rw [List.foldl_cons]
    exact ih _ j (is_processed_mark_mono _ _ _ _ _ _ _ h)

theorem inner_runP (env : RunEnv) (r : String) (hr : env.run_id = r)
    (results : List (String × Option String × Bool)) :
    ∀ (st : BatchSt) id,
      (Ev.mark id ∈ st.events → ∀ p ∈ st.db.processed, p.email_id = id → p.run_id = some r) →
      Ev.mark id ∈ ((results.foldl
        (fun (acc : BatchSt) x =>
          { db := mark_processed acc.db x.1 true x.2.1 (some env.run_id) env.now,
            events := acc.events ++ [Ev.mark x.1],
            receipts_added := if x.2.2 then acc.receipts_added else acc.receipts_added + 1,
            duplicates := if x.2.2 then acc.duplicates + 1 else acc.duplicates,
            errors := acc.errors }) st).events) →
        ∀ p ∈ ((results.foldl
          (fun (acc : BatchSt) x =>
            { db := mark_processed acc.db x.1 true x.2.1 (some env.run_id) env.now,
              events := acc.events ++ [Ev.mark x.1],
              receipts_added := if x.2.2 then acc.receipts_added else acc.receipts_added + 1,
              duplicates := if x.2.2 then acc.duplicates + 1 else acc.duplicates,
              errors := acc.errors }) st).db).processed,
          p.email_id = id → p.run_id = some r := by
  induction results with
  | nil => intro st id h hm; exact h hm
  | cons x rest ih =>
    intro st id h hm
    rw [List.foldl_cons] at hm ⊢
    refine ih _ id ?_ hm
    by_cases hid : x.1 = id
    · intro _ p hp he
      rw [← hid] at he
      rw [← hr]
      exact run_rows_mark_self st.db x.1 true x.2.1 env.run_id env.now p hp he
    · intro hm2 p hp he
      have h3 : Ev.mark id ∈ st.events := by
        rcases List.mem_append.mp hm2 with h4 | h4
        · exact h4
        · rcases List.mem_singleton.mp h4 with h5
          injection h5 with h6
          exact absurd h6.symm hid
      exact run_rows_mark_other st.db id x.1 true x.2.1 r env.now
        (some env.run_id) hid (h h3) p hp he

theorem inner_rowsFor_other (env : RunEnv) (results : List (String × Option String × Bool)) :
    ∀ (st : BatchSt) id, (∀ x ∈ results, x.1 ≠ id) →
      rowsFor id ((results.foldl
        (fun (acc : BatchSt) r =>
          { db := mark_processed acc.db r.1 true r.2.1 (some env.run_id) env.now,
            events := acc.events ++ [Ev.mark r.1],
            receipts_added := if r.2.2 then acc.receipts_added else acc.receipts_added + 1,
            duplicates := if r.2.2 then acc.duplicates + 1 else acc.duplicates,
            errors := acc.errors }) st).db) = rowsFor id st.db := by
  induction results with
  | nil => intro st id _; rfl
  | cons r rest ih =>
    intro st id h
    rw [List.foldl_cons]
    rw [ih _ id (fun x hx => h x (List.mem_cons_of_mem r hx))]
    exact rowsFor_mark_other st.db r.1 id true r.2.1 (some env.run_id) env.now
      (fun hc => h r (List.mem_cons_self r rest) hc.symm)


theorem chunks5Aux_mem (t : PendingTransaction) :
    ∀ (fuel : Nat) (l : List PendingTransaction) (b : List PendingTransaction),
      b ∈ chunks5Aux fuel l → t ∈ b → t ∈ l := by
  intro fuel
  induction fuel with
  | zero => intro l b hb _; exact absurd hb (by simp [chunks5Aux])
  | succ n ih =>
    intro l b hb ht
    cases l with
    | nil => exact absurd hb (by simp [chunks5Aux])
    | cons x xs =>
      rw [chunks5Aux] at hb
      · rcases List.mem_cons.mp hb with h1 | h1
        · rw [h1] at ht
          exact List.take_subset 5 (x :: xs) ht
        · exact List.drop_subset 5 (x :: xs) (ih (List.drop 5 (x :: xs)) b h1 ht)
      · exact fun hc => List.noConfusion hc

theorem chunks5_mem (l b : List PendingTransaction) (t : PendingTransaction)
    (hb : b ∈ chunks5 l) (ht : t ∈ b) : t ∈ l :=
  chunks5Aux_mem t l.length l b hb ht

theorem sob_cache (env : RunEnv) (st : BatchSt) (batch : List PendingTransaction) :
    (submitOneBatch env st batch).db.cache = st.db.cache := by
  unfold submitOneBatch
  cases env.batchResponse batch with
  | error u => rfl
  | ok pr =>
    exact inner_cache env (map_batch_results batch pr.1 pr.2)
      { st with events := st.events ++ [Ev.batchSubmit (batch.map (fun t => t.email_id))] }

theorem sob_runs (env : RunEnv) (st : BatchSt) (batch : List PendingTransaction) :
    (submitOneBatch env st batch).db.runs = st.db.runs := by
  unfold submitOneBatch
  cases env.batchResponse batch with
  | error u => rfl
  | ok pr =>
    exact inner_runs env (map_batch_results batch pr.1 pr.2)
      { st with events := st.events ++ [Ev.batchSubmit (batch.map (fun t => t.email_id))] }

theorem sob_errors (env : RunEnv) (st : BatchSt) (batch : List PendingTransaction) :
    (submitOneBatch env st batch).errors
      = st.errors + (match env.batchResponse batch with
          | .error _ => batch.length
          | .ok _ => 0) := by
  unfold submitOneBatch
  cases env.batchResponse batch with
  | error u => rfl
  | ok pr =>
    simp only []
    rw [inner_errors env (map_batch_results batch pr.1 pr.2)
      { st with events := st.events ++ [Ev.batchSubmit (batch.map (fun t => t.email_id))] }]
    rfl

theorem sob_db_err (env : RunEnv) (st : BatchSt) (batch : List PendingTransaction) (u : Unit)
    (h : env.batchResponse batch = .error u) :
    (submitOneBatch env st batch).db = st.db
      ∧ (submitOneBatch env st batch).errors = st.errors + batch.length
      ∧ (submitOneBatch env st batch).receipts_added = st.receipts_added
      ∧ (submitOneBatch env st batch).events
          = st.events ++ [Ev.batchSubmit (batch.map (fun t => t.email_id))] := by
  unfold submitOneBatch
  rw [h]
  exact ⟨rfl, rfl, rfl, rfl⟩

theorem sob_events_mono (env : RunEnv) (st : BatchSt) (batch : List PendingTransaction)
    (ev : Ev) (h : ev ∈ st.events) : ev ∈ (submitOneBatch env st batch).events := by
  unfold submitOneBatch
  cases env.batchResponse batch with
  | error u => exact List.mem_append.mpr (Or.inl h)
  | ok pr =>
    exact inner_events_mono env (map_batch_results batch pr.1 pr.2) _ ev
      (List.mem_append.mpr (Or.inl h))

theorem sob_event_self (env : RunEnv) (st : BatchSt) (batch : List PendingTransaction) :
    Ev.batchSubmit (batch.map (fun t => t.email_id)) ∈ (submitOneBatch env st batch).events := by
  unfold submitOneBatch
  cases env.batchResponse batch with
  | error u => exact List.mem_append.mpr (Or.inr (List.mem_singleton.mpr rfl))
  | ok pr =>
    exact inner_events_mono env (map_batch_results batch pr.1 pr.2) _ _
      (List.mem_append.mpr (Or.inr (List.mem_singleton.mpr rfl)))

theorem sob_events_mem (env : RunEnv) (st : BatchSt) (batch : List PendingTransaction)
    (ev : Ev) (h : ev ∈ (submitOneBatch env st batch).events) :
    ev ∈ st.events ∨ ev = Ev.batchSubmit (batch.map (fun t => t.email_id))
      ∨ ∃ t ∈ batch, ev = Ev.mark t.email_id := by
  revert h
  unfold submitOneBatch
  cases env.batchResponse batch with
  | error u =>
    intro h
    rcases List.mem_append.mp h with h1 | h1
    · exact Or.inl h1
    · exact Or.inr (Or.inl (List.mem_singleton.mp h1))
  | ok pr =>
    intro h
    rcases inner_events_mem env (map_batch_results batch pr.1 pr.2) _ ev h with h1 | ⟨r, hr, hev⟩
    · rcases List.mem_append.mp h1 with h2 | h2
      · exact Or.inl h2
      · exact Or.inr (Or.inl (List.mem_singleton.mp h2))
    · have h3 := (mbr_mem batch pr.1 pr.2 r hr).1
      rcases List.mem_map.mp h3 with ⟨t, ht, hte⟩
      exact Or.inr (Or.inr ⟨t, ht, by rw [hev, hte]⟩)

theorem sob_tid (env : RunEnv) (r : String) (st : BatchSt) (batch : List PendingTransaction) :
    (tidRows r (submitOneBatch env st batch).db).length + st.receipts_added
      ≤ (tidRows r st.db).length + (submitOneBatch env st batch).receipts_added := by
  unfold submitOneBatch
  cases env.batchResponse batch with
  | error u => exact le_refl _
  | ok pr =>
    exact inner_tid env r (map_batch_results batch pr.1 pr.2)
      { st with events := st.events ++ [Ev.batchSubmit (batch.map (fun t => t.email_id))] }
      (fun x hx => (mbr_mem batch pr.1 pr.2 x hx).2)

theorem sob_is_processed_mono (env : RunEnv) (st : BatchSt) (batch : List PendingTransaction)
    (j : String) (h : is_processed st.db j = true) :
    is_processed (submitOneBatch env st batch).db j = true := by
  revert h
  unfold submitOneBatch
  cases env.batchResponse batch with
  | error u => intro h; exact h
  | ok pr =>
    intro h
    exact inner_is_processed_mono env (map_batch_results batch pr.1 pr.2) _ j h

theorem sob_runP (env : RunEnv) (r : String) (hr : env.run_id = r) (st : BatchSt)
    (batch : List PendingTransaction) (id : String)
    (h : Ev.mark id ∈ st.events → ∀ p ∈ st.db.processed, p.email_id = id → p.run_id = some r)
    (hm : Ev.mark id ∈ (submitOneBatch env st batch).events) :
    ∀ p ∈ (submitOneBatch env st batch).db.processed, p.email_id = id → p.run_id = some r := by
  revert hm
  unfold submitOneBatch
  cases env.batchResponse batch with
  | error u =>
    intro hm
    refine h ?_
    rcases List.mem_append.mp hm with h1 | h1
    · exact h1
    · exact absurd (List.mem_singleton.mp h1) (by simp)
  | ok pr =>
    intro hm
    refine inner_runP env r hr (map_batch_results batch pr.1 pr.2) _ id ?_ hm
    intro hm2 p hp he
    refine h ?_ p hp he
    rcases List.mem_append.mp hm2 with h1 | h1
    · exact h1
    · exact absurd (List.mem_singleton.mp h1) (by simp)

theorem sob_rowsFor_other (env : RunEnv) (st : BatchSt) (batch : List PendingTransaction)
    (id : String) (h : ∀ t ∈ batch, t.email_id ≠ id) :
    rowsFor id (submitOneBatch env st batch).db = rowsFor id st.db := by
  unfold submitOneBatch
  cases env.batchResponse batch with
  | error u => rfl
  | ok pr =>
    refine inner_rowsFor_other env (map_batch_results batch pr.1 pr.2) _ id ?_
    intro x hx
    have h3 := (mbr_mem batch pr.1 pr.2 x hx).1
    rcases List.mem_map.mp h3 with ⟨t, ht, hte⟩
    rw [← hte]
    exact h t ht

theorem sb_cache (env : RunEnv) (regular : List PendingTransaction) :
    ∀ st : BatchSt, (submitBatches env st regular).db.cache = st.db.cache := by
  unfold submitBatches
  generalize chunks5 regular = bs
  induction bs with
  | nil => intro st; rfl
  | cons b rest ih =>
    intro st
    rw [List.foldl_cons, ih, sob_cache]

theorem sb_runs (env : RunEnv) (regular : List PendingTransaction) :
    ∀ st : BatchSt, (submitBatches env st regular).db.runs = st.db.runs := by
  unfold submitBatches
  generalize chunks5 regular = bs
  induction bs with
  | nil => intro st; rfl
  | cons b rest ih =>
    intro st
    rw [List.foldl_cons, ih, sob_runs]

theorem sb_errors (env : RunEnv) (regular : List PendingTransaction) :
    ∀ st : BatchSt, (submitBatches env st regular).errors
      = st.errors + ((chunks5 regular).map (fun b => match env.batchResponse b with
          | .error _ => b.length
          | .ok _ => 0)).sum := by
  unfold submitBatches
  generalize chunks5 regular = bs
  induction bs with
  | nil => intro st; simp
  | cons b rest ih =>
    intro st
    rw [List.foldl_cons, ih, sob_errors]
    simp only [List.map_cons, List.sum_cons]
    omega

theorem sb_events_mono (env : RunEnv) (regular : List PendingTransaction) :
    ∀ (st : BatchSt) ev, ev ∈ st.events → ev ∈ (submitBatches env st regular).events := by
  unfold submitBatches
  generalize chunks5 regular = bs
  induction bs with
  | nil => intro st ev h; exact h
  | cons b rest ih =>
    intro st ev h
    rw [List.foldl_cons]
    exact ih _ ev (sob_events_mono env st b ev h)

theorem sb_fold_events_mono (env : RunEnv) (bs : List (List PendingTransaction)) :
    ∀ (st : BatchSt) ev, ev ∈ st.events → ev ∈ (bs.foldl (submitOneBatch env) st).events := by
  induction bs with
  | nil => intro st ev h; exact h
  | cons b rest ih =>
    intro st ev h
    rw [List.foldl_cons]
    exact ih _ ev (sob_events_mono env st b ev h)

theorem sb_all_submitted (env : RunEnv) (regular : List PendingTransaction) :
    ∀ (st : BatchSt) b, b ∈ chunks5 regular →
      Ev.batchSubmit (b.map (fun t => t.email_id)) ∈ (submitBatches env st regular).events := by
  unfold submitBatches
  generalize chunks5 regular = bs
  induction bs with
  | nil => intro st b hb; exact absurd hb (List.not_mem_nil b)
  | cons c rest ih =>
    intro st b hb
    rw [List.foldl_cons]
    rcases List.mem_cons.mp hb with h1 | h1
    · rw [h1]
      exact sb_fold_events_mono env rest _ _ (sob_event_self env st c)
    · exact ih _ b h1

theorem sb_events_mem (env : RunEnv) (regular : List PendingTransaction) :
    ∀ (st : BatchSt) ev, ev ∈ (submitBatches env st regular).events →
      ev ∈ st.events ∨ ∃ b ∈ chunks5 regular,
        ev = Ev.batchSubmit (b.map (fun t => t.email_id)) ∨ ∃ t ∈ b, ev = Ev.mark t.email_id := by
  unfold submitBatches
  generalize chunks5 regular = bs
  induction bs with
  | nil => intro st ev h; exact Or.inl h
  | cons b rest ih =>
    intro st ev h
    rw [List.foldl_cons] at h
    rcases ih _ ev h with h1 | ⟨b', hb', hev⟩
    · rcases sob_events_mem env st b ev h1 with h2 | h2 | ⟨t, ht, hev⟩
      · exact Or.inl h2
      · exact Or.inr ⟨b, List.mem_cons_self _ _, Or.inl h2⟩
      · exact Or.inr ⟨b, List.mem_cons_self _ _, Or.inr ⟨t, ht, hev⟩⟩
    · exact Or.inr ⟨b', List.mem_cons_of_mem _ hb', hev⟩

theorem sb_tid (env : RunEnv) (r : String) (regular : List PendingTransaction) :
    ∀ st : BatchSt, (tidRows r (submitBatches env st regular).db).length + st.receipts_added
      ≤ (tidRows r st.db).length + (submitBatches env st regular).receipts_added := by
  unfold submitBatches
  generalize chunks5 regular = bs
  induction bs with
  | nil => intro st; exact le_refl _
  | cons b rest ih =>
    intro st
    rw [List.foldl_cons]
    have h1 := ih (submitOneBatch env st b)
    have h2 := sob_tid env r st b
    omega

theorem sb_is_processed_mono (env : RunEnv) (regular : List PendingTransaction) :
    ∀ (st : BatchSt) j, is_processed st.db j = true →
      is_processed (submitBatches env st regular).db j = true := by
  unfold submitBatches
  generalize chunks5 regular = bs
  induction bs with
  | nil => intro st j h; exact h
  | cons b rest ih =>
    intro st j h
    rw [List.foldl_cons]
    exact ih _ j (sob_is_processed_mono env st b j h)

theorem sb_runP (env : RunEnv) (r : String) (hr : env.run_id = r)
    (regular : List PendingTransaction) :
    ∀ (st : BatchSt) id,
      (Ev.mark id ∈ st.events → ∀ p ∈ st.db.processed, p.email_id = id → p.run_id = some r) →
      Ev.mark id ∈ (submitBatches env st regular).events →
        ∀ p ∈ (submitBatches env st regular).db.processed,
          p.email_id = id → p.run_id = some r := by
  unfold submitBatches
  generalize chunks5 regular = bs
  induction bs with
  | nil => intro st id h hm; exact h hm
  | cons b rest ih =>
    intro st id h hm
    rw [List.foldl_cons] at hm ⊢
    exact ih _ id (sob_runP env r hr st b id h) hm

theorem sb_rowsFor_other (env : RunEnv) (regular : List PendingTransaction) :
    ∀ (st : BatchSt) id, (∀ t ∈ regular, t.email_id ≠ id) →
      rowsFor id (submitBatches env st regular).db = rowsFor id st.db := by
  unfold submitBatches
  have hch : ∀ b ∈ chunks5 regular, ∀ t ∈ b, t ∈ regular :=
    fun b hb t ht => chunks5_mem regular b t hb ht
  revert hch
  generalize chunks5 regular = bs
  intro hch
  induction bs with
  | nil => intro st id _; rfl
  | cons b rest ih =>
    intro st id h
    rw [List.foldl_cons]
    rw [ih (fun c hc => hch c (List.mem_cons_of_mem b hc)) _ id h]
    exact sob_rowsFor_other env st b id
      (fun t ht => h t (hch b (List.mem_cons_self b rest) t ht))


theorem cacheHas_of_cache_eq (db db' : DB) (id : String) (h : db.cache = db'.cache) :
    cacheHas db id = cacheHas db' id := by
  unfold cacheHas get_cached_classification
  rw [h]

theorem tidRows_complete_run (r : String) (db : DB) (rid : String) (n : Nat) (now : String) :
    tidRows r (complete_run db rid n now) = tidRows r db := rfl

theorem fin_completed (env : RunEnv) (db : DB) (evs : List Ev) (s c e : Nat)
    (sel : List PendingTransaction) : (finishRun env db evs s c e sel).completed = true := rfl

theorem fin_cache (env : RunEnv) (db : DB) (evs : List Ev) (s c e : Nat)
    (sel : List PendingTransaction) : (finishRun env db evs s c e sel).db.cache = db.cache := by
  unfold finishRun
  simp only []
  rw [complete_run_cache, sb_cache, ssf_cache]

theorem fin_runs (env : RunEnv) (db : DB) (evs : List Ev) (s c e : Nat)
    (sel : List PendingTransaction) :
    (finishRun env db evs s c e sel).db.runs
      = (complete_run db env.run_id
          ((finishRun env db evs s c e sel).receipts_added
            + (finishRun env db evs s c e sel).scheduled_added) env.now).runs := by
  unfold finishRun complete_run
  simp only []
  rw [sb_runs, ssf_runs]

theorem fin_tid (env : RunEnv) (r : String) (db : DB) (evs : List Ev) (s c e : Nat)
    (sel : List PendingTransaction) :
    (tidRows r (finishRun env db evs s c e sel).db).length
      ≤ (tidRows r db).length + (finishRun env db evs s c e sel).receipts_added
        + (finishRun env db evs s c e sel).scheduled_added := by
  unfold finishRun
  simp only []
  have h1 := ssf_tid env r (sel.filter (fun t => t.is_scheduled)) ⟨db, evs, 0, e⟩
  have h2 := sb_tid env r (sel.filter (fun t => decide ¬ t.is_scheduled = true))
    ⟨(List.foldl (submitScheduledOne env) ⟨db, evs, 0, e⟩
        (sel.filter (fun t => t.is_scheduled))).db,
     (List.foldl (submitScheduledOne env) ⟨db, evs, 0, e⟩
        (sel.filter (fun t => t.is_scheduled))).events, 0, 0,
     (List.foldl (submitScheduledOne env) ⟨db, evs, 0, e⟩
        (sel.filter (fun t => t.is_scheduled))).errors⟩
  rw [tidRows_complete_run]
  dsimp only at h1 h2 ⊢
  omega

theorem fin_is_processed_mono (env : RunEnv) (db : DB) (evs : List Ev) (s c e : Nat)
    (sel : List PendingTransaction) (j : String) (h : is_processed db j = true) :
    is_processed (finishRun env db evs s c e sel).db j = true := by
  unfold finishRun
  simp only []
  show is_processed (complete_run _ _ _ _) j = true
  unfold complete_run is_processed
  simp only []
  have h1 := ssf_is_processed_mono env (sel.filter (fun t => t.is_scheduled)) ⟨db, evs, 0, e⟩ j h
  have h2 := sb_is_processed_mono env (sel.filter (fun t => decide ¬ t.is_scheduled = true))
    ⟨(List.foldl (submitScheduledOne env) ⟨db, evs, 0, e⟩
        (sel.filter (fun t => t.is_scheduled))).db,
     (List.foldl (submitScheduledOne env) ⟨db, evs, 0, e⟩
        (sel.filter (fun t => t.is_scheduled))).events, 0, 0,
     (List.foldl (submitScheduledOne env) ⟨db, evs, 0, e⟩
        (sel.filter (fun t => t.is_scheduled))).errors⟩ j h1
  exact h2

theorem fin_no_classifier (env : RunEnv) (db : DB) (evs : List Ev) (s c e : Nat)
    (sel : List PendingTransaction) (id : String)
    (h1 : Ev.classifierCall id ∉ evs) (h2 : Ev.cacheLookup id ∉ evs) :
    Ev.classifierCall id ∉ (finishRun env db evs s c e sel).events
      ∧ Ev.cacheLookup id ∉ (finishRun env db evs s c e sel).events := by
  unfold finishRun
  simp only []
  constructor
  · intro hin
    rcases sb_events_mem env _ _ _ hin with h3 | ⟨b, hb, h4 | ⟨t, ht, h4⟩⟩
    · rcases ssf_events_mem env _ _ _ h3 with h5 | ⟨t, ht, h5 | h5⟩
      · exact h1 h5
      · cases h5
      · cases h5
    · cases h4
    · cases h4
  · intro hin
    rcases sb_events_mem env _ _ _ hin with h3 | ⟨b, hb, h4 | ⟨t, ht, h4⟩⟩
    · rcases ssf_events_mem env _ _ _ h3 with h5 | ⟨t, ht, h5 | h5⟩
      · exact h2 h5
      · cases h5
      · cases h5
    · cases h4
    · cases h4

theorem fin_runP (env : RunEnv) (r : String) (hr : env.run_id = r) (db : DB) (evs : List Ev)
    (s c e : Nat) (sel : List PendingTransaction) (id : String)
    (h : Ev.mark id ∈ evs → ∀ p ∈ db.processed, p.email_id = id → p.run_id = some r)
    (hm : Ev.mark id ∈ (finishRun env db evs s c e sel).events) :
    ∀ p ∈ (finishRun env db evs s c e sel).db.processed,
      p.email_id = id → p.run_id = some r := by
  revert hm
  unfold finishRun
  simp only []
  intro hm p hp he
  have hp2 : p ∈ (submitBatches env
      ⟨(List.foldl (submitScheduledOne env) ⟨db, evs, 0, e⟩
          (sel.filter (fun t => t.is_scheduled))).db,
       (List.foldl (submitScheduledOne env) ⟨db, evs, 0, e⟩
          (sel.filter (fun t => t.is_scheduled))).events, 0, 0,
       (List.foldl (submitScheduledOne env) ⟨db, evs, 0, e⟩
          (sel.filter (fun t => t.is_scheduled))).errors⟩
      (sel.filter (fun t => decide ¬ t.is_scheduled = true))).db.processed := hp
  exact sb_runP env r hr (sel.filter (fun t => decide ¬ t.is_scheduled = true)) _ id
    (ssf_runP env r hr (sel.filter (fun t => t.is_scheduled)) ⟨db, evs, 0, e⟩ id h)
    hm p hp2 he

theorem fin_rowsFor_other (env : RunEnv) (db : DB) (evs : List Ev) (s c e : Nat)
    (sel : List PendingTransaction) (id : String) (h : ∀ t ∈ sel, t.email_id ≠ id) :
    rowsFor id (finishRun env db evs s c e sel).db = rowsFor id db := by
  unfold finishRun
  simp only []
  show rowsFor id (complete_run _ _ _ _) = _
  have hcr : ∀ d : DB, ∀ rid n now, rowsFor id (complete_run d rid n now) = rowsFor id d :=
    fun d rid n now => rfl
  rw [hcr]
  rw [sb_rowsFor_other env _ _ id
    (fun t ht => h t (List.mem_of_mem_filter ht))]
  show rowsFor id (List.foldl (submitScheduledOne env) ⟨db, evs, 0, e⟩ _).db = _
  rw [ssf_rowsFor_other env _ _ id
    (fun t ht => h t (List.mem_of_mem_filter ht))]

theorem gtr_tid_aux (r : String) (l : List PRow) :
    (l.filterMap (fun p =>
      if p.run_id = some r then p.ynab_transaction_id.map (fun t => (p.email_id, t))
      else none)).length
      = (l.filter (fun p => p.run_id = some r ∧ p.ynab_transaction_id ≠ none)).length := by
  induction l with
  | nil => rfl
  | cons p rest ih =>
    rw [List.filterMap_cons, List.filter_cons]
    by_cases hr : p.run_id = some r
    · cases ht : p.ynab_transaction_id with
      | none => simp [hr, ht, ih]
      | some t => simp [hr, ht, ih]
    · simp [hr, ih]

theorem gtr_length (db : DB) (r : String) :
    (get_transactions_for_run db r).length = (tidRows r db).length :=
  gtr_tid_aux r db.processed

theorem undo_fold_len (oracle : String → DResult) (txns : List (String × String)) :
    ∀ acc : List Ev × Nat × Nat × Nat,
      ((txns.foldl
        (fun (acc : List Ev × Nat × Nat × Nat) t =>
          if t.2 = "" then (acc.1, acc.2.1, acc.2.2.1 + 1, acc.2.2.2)
          else
            match oracle t.2 with
            | .success => (acc.1 ++ [Ev.deleteTxn t.2], acc.2.1 + 1, acc.2.2.1, acc.2.2.2)
            | .notFound => (acc.1 ++ [Ev.deleteTxn t.2], acc.2.1, acc.2.2.1 + 1, acc.2.2.2)
            | .failure => (acc.1 ++ [Ev.deleteTxn t.2], acc.2.1, acc.2.2.1, acc.2.2.2 + 1))
        acc).1).length ≤ acc.1.length + txns.length := by
  induction txns with
  | nil => intro acc; simp
  | cons t rest ih =>
    intro acc
    rw [List.foldl_cons]
    by_cases ht : t.2 = ""
    · have h1 := ih (acc.1, acc.2.1, acc.2.2.1 + 1, acc.2.2.2)
      rw [if_pos ht]
      simp only [List.length_cons] at h1 ⊢
      omega
    · rw [if_neg ht]
      cases ho : oracle t.2 with
      | success =>
        have h1 := ih (acc.1 ++ [Ev.deleteTxn t.2], acc.2.1 + 1, acc.2.2.1, acc.2.2.2)
        simp only [List.length_append, List.length_singleton, List.length_cons, List.length_nil] at h1 ⊢
        omega
      | notFound =>
        have h1 := ih (acc.1 ++ [Ev.deleteTxn t.2], acc.2.1, acc.2.2.1 + 1, acc.2.2.2)
        simp only [List.length_append, List.length_singleton, List.length_cons, List.length_nil] at h1 ⊢
        omega
      | failure =>
        have h1 := ih (acc.1 ++ [Ev.deleteTxn t.2], acc.2.1, acc.2.2.1, acc.2.2.2 + 1)
        simp only [List.length_append, List.length_singleton, List.length_cons, List.length_nil] at h1 ⊢
        omega

theorem undo_fold_all_delete (oracle : String → DResult) (txns : List (String × String)) :
    ∀ acc : List Ev × Nat × Nat × Nat, (∀ ev ∈ acc.1, ev.isDelete = true) →
      ∀ ev ∈ (txns.foldl
        (fun (acc : List Ev × Nat × Nat × Nat) t =>
          if t.2 = "" then (acc.1, acc.2.1, acc.2.2.1 + 1, acc.2.2.2)
          else
            match oracle t.2 with
            | .success => (acc.1 ++ [Ev.deleteTxn t.2], acc.2.1 + 1, acc.2.2.1, acc.2.2.2)
            | .notFound => (acc.1 ++ [Ev.deleteTxn t.2], acc.2.1, acc.2.2.1 + 1, acc.2.2.2)
            | .failure => (acc.1 ++ [Ev.deleteTxn t.2], acc.2.1, acc.2.2.1, acc.2.2.2 + 1))
        acc).1, ev.isDelete = true := by
  induction txns with
  | nil => intro acc h; exact h
  | cons t rest ih =>
    intro acc h
    rw [List.foldl_cons]
    by_cases ht : t.2 = ""
    · rw [if_pos ht]
      exact ih _ h
    · rw [if_neg ht]
      have hstep : ∀ ev ∈ acc.1 ++ [Ev.deleteTxn t.2], ev.isDelete = true := by
        intro ev hev
        rcases List.mem_append.mp hev with h1 | h1
        · exact h ev h1
        · rw [List.mem_singleton.mp h1]; rfl
      cases ho : oracle t.2 with
      | success => exact ih _ hstep
      | notFound => exact ih _ hstep
      | failure => exact ih _ hstep

theorem delete_run_records_clean (db : DB) (r : String) :
    (delete_run_records db r).processed.filter (fun p => p.run_id = some r) = []
      ∧ (delete_run_records db r).runs.filter (fun q => q.run_id = r) = [] := by
  unfold delete_run_records
  constructor
  · simp only []
    rw [List.filter_filter, List.filter_eq_nil_iff]
    intro p _
    simp
  · simp only []
    rw [List.filter_filter, List.filter_eq_nil_iff]
    intro q _
    simp

theorem undo_events_len (db : DB) (oracle : String → DResult) :
    (undo_last_run_impl db oracle).events.length
      ≤ (match get_last_run db with
         | none => 0
         | some (rid, _) => (tidRows rid db).length) := by
  unfold undo_last_run_impl
  cases hg : get_last_run db with
  | none => simp
  | some rc =>
    simp only []
    split
    · simp
    · have h1 := undo_fold_len oracle (get_transactions_for_run db rc.1) ([], 0, 0, 0)
      simp only [List.length_nil, Nat.zero_add] at h1
      rw [gtr_length] at h1
      exact h1


theorem get_cached_congr (db db' : DB) (id : String) (h : db.cache = db'.cache) :
    get_cached_classification db id = get_cached_classification db' id := by
  unfold get_cached_classification
  rw [h]

theorem tidRows_congr (r : String) (db db' : DB) (h : db.processed = db'.processed) :
    tidRows r db = tidRows r db' := by
  unfold tidRows
  rw [h]

theorem tidRows_nil_of (r : String) (db : DB)
    (h : ∀ p ∈ db.processed, p.run_id ≠ some r) : tidRows r db = [] := by
  unfold tidRows
  rw [List.filter_eq_nil_iff]
  intro p hp
  simp [h p hp]

theorem get_last_run_of_single (db : DB) (rid st ct : String) (n : Nat)
    (h : db.runs = [⟨rid, st, some ct, n⟩]) : get_last_run db = some (rid, n) := by
  unfold get_last_run
  rw [h]
  rfl

theorem undo_db_eq (db : DB) (r : String) (n : Nat) (oracle : String → DResult)
    (hg : get_last_run db = some (r, n)) :
    (undo_last_run_impl db oracle).db = delete_run_records db r := by
  unfold undo_last_run_impl
  rw [hg]
  simp only []
  split
  · rfl
  · rfl

theorem undo_props (db : DB) (r : String) (n : Nat) (oracle : String → DResult)
    (hg : get_last_run db = some (r, n)) (ht : (tidRows r db).length ≤ n) :
    (undo_last_run_impl db oracle).events.length ≤ n
      ∧ (∀ ev ∈ (undo_last_run_impl db oracle).events, ev.isDelete = true) := by
  unfold undo_last_run_impl
  rw [hg]
  simp only []
  split
  · exact ⟨by simp, by intro ev h; exact absurd h (by simp)⟩
  · constructor
    · dsimp only
      have h1 := undo_fold_len oracle (get_transactions_for_run db r) ([], 0, 0, 0)
      have h2 := gtr_length db r
      simp only [List.length_nil] at h1
      omega
    · intro ev h
      exact undo_fold_all_delete oracle (get_transactions_for_run db r) ([], 0, 0, 0)
        (fun e he => absurd he (List.not_mem_nil e)) ev h

theorem ev1_no_mark (env : RunEnv) (db1 : DB) (id : String) :
    Ev.mark id ∉ (refresh_payee_cache_if_needed env db1).2 ++ [Ev.fetchEmails] := by
  rcases refresh_events env db1 with h | h <;> rw [h] <;> simp

theorem scan_no_mark (env : RunEnv) (db0 : DB) (id : String) :
    Ev.mark id ∉ (env.emails.foldl (processOne env)
      ⟨(refresh_payee_cache_if_needed env (start_run db0 env.run_id env.now)).1,
       (refresh_payee_cache_if_needed env (start_run db0 env.run_id env.now)).2
         ++ [Ev.fetchEmails], 0, 0, 0, [], []⟩).events := by
  intro hin
  rcases scan_events_mem env env.emails _ _ hin with h1 | ⟨e, he, h2 | h2⟩
  · exact ev1_no_mark env _ id h1
  · cases h2
  · cases h2

theorem pei_runP (env : RunEnv) (db0 : DB) (id : String)
    (hm : Ev.mark id ∈ (processEmailsImpl env db0).events) :
    ∀ p ∈ (processEmailsImpl env db0).db.processed,
      p.email_id = id → p.run_id = some env.run_id := by
  have hsc := scan_no_mark env db0 id
  revert hm
  unfold processEmailsImpl
  simp only []
  split
  · intro hm
    exact mnr_runP env.run_id env.now env.run_id _ rfl _ id (fun h => absurd h hsc) hm
  · split
    · intro hm
      exact mnr_runP env.run_id env.now env.run_id _ rfl _ id (fun h => absurd h hsc) hm
    · split
      · intro hm
        exact mdes_runP env.run_id env.now env.run_id _ rfl _ id
          (mnr_runP env.run_id env.now env.run_id _ rfl _ id (fun h => absurd h hsc)) hm
      · intro hm
        exact fin_runP env env.run_id rfl _ _ _ _ _ _ id
          (mdes_runP env.run_id env.now env.run_id _ rfl _ id
            (mnr_runP env.run_id env.now env.run_id _ rfl _ id (fun h => absurd h hsc))) hm


theorem start_run_runs (db : DB) (rid now : String) :
    (start_run db rid now).runs = db.runs ++ [⟨rid, now, none, 0⟩] := rfl

theorem post_runs_fin (env : RunEnv) (db1 : DB) (evs : List Ev) (sk ca er : Nat)
    (ids : List String) (ts sel : List PendingTransaction)
    (h1 : db1.runs = [⟨env.run_id, env.now, none, 0⟩]) :
    (finishRun env
        (markDeselected env.run_id env.now
          (markNonReceipts env.run_id env.now (db1, evs) ids) ts).1
        (markDeselected env.run_id env.now
          (markNonReceipts env.run_id env.now (db1, evs) ids) ts).2
        sk ca er sel).db.runs
      = [⟨env.run_id, env.now, some env.now,
          (finishRun env
            (markDeselected env.run_id env.now
              (markNonReceipts env.run_id env.now (db1, evs) ids) ts).1
            (markDeselected env.run_id env.now
              (markNonReceipts env.run_id env.now (db1, evs) ids) ts).2
            sk ca er sel).receipts_added
          + (finishRun env
              (markDeselected env.run_id env.now
                (markNonReceipts env.run_id env.now (db1, evs) ids) ts).1
              (markDeselected env.run_id env.now
                (markNonReceipts env.run_id env.now (db1, evs) ids) ts).2
              sk ca er sel).scheduled_added⟩] := by
  rw [fin_runs]
  unfold complete_run
  dsimp only
  rw [mdes_runs, mnr_runs]
  dsimp only
  rw [h1]
  simp only [List.map_cons, List.map_nil, if_pos rfl, eq_self_iff_true, if_true]

theorem post_tid_fin (env : RunEnv) (db1 : DB) (evs : List Ev) (sk ca er : Nat)
    (ids : List String) (ts sel : List PendingTransaction)
    (h1 : (tidRows env.run_id db1).length = 0) :
    (tidRows env.run_id (finishRun env
        (markDeselected env.run_id env.now
          (markNonReceipts env.run_id env.now (db1, evs) ids) ts).1
        (markDeselected env.run_id env.now
          (markNonReceipts env.run_id env.now (db1, evs) ids) ts).2
        sk ca er sel).db).length
      ≤ (finishRun env
          (markDeselected env.run_id env.now
            (markNonReceipts env.run_id env.now (db1, evs) ids) ts).1
          (markDeselected env.run_id env.now
            (markNonReceipts env.run_id env.now (db1, evs) ids) ts).2
          sk ca er sel).receipts_added
        + (finishRun env
            (markDeselected env.run_id env.now
              (markNonReceipts env.run_id env.now (db1, evs) ids) ts).1
            (markDeselected env.run_id env.now
              (markNonReceipts env.run_id env.now (db1, evs) ids) ts).2
            sk ca er sel).scheduled_added := by
  have h2 := fin_tid env env.run_id
    (markDeselected env.run_id env.now
      (markNonReceipts env.run_id env.now (db1, evs) ids) ts).1
    (markDeselected env.run_id env.now
      (markNonReceipts env.run_id env.now (db1, evs) ids) ts).2
    sk ca er sel
  have h3 := mdes_tid_le env.run_id env.now env.run_id ts
    (markNonReceipts env.run_id env.now (db1, evs) ids)
  have h4 := mnr_tid_le env.run_id env.now env.run_id ids (db1, evs)
  dsimp only at h4
  omega

theorem pei_completed_facts (env : RunEnv) (db0 : DB)
    (h0 : db0.runs = [])
    (hP : ∀ p ∈ db0.processed, p.run_id ≠ some env.run_id)
    (hc : (processEmailsImpl env db0).completed = true) :
    (processEmailsImpl env db0).db.runs
      = [⟨env.run_id, env.now, some env.now,
          (processEmailsImpl env db0).receipts_added
            + (processEmailsImpl env db0).scheduled_added⟩]
      ∧ (tidRows env.run_id (processEmailsImpl env db0).db).length
          ≤ (processEmailsImpl env db0).receipts_added
            + (processEmailsImpl env db0).scheduled_added := by
  revert hc
  unfold processEmailsImpl
  simp only []
  split
  · intro hc
    exact Bool.noConfusion hc
  · split
    · intro hc
      exact Bool.noConfusion hc
    · split
      · intro hc
        exact Bool.noConfusion hc
      · intro _
        constructor
        · apply post_runs_fin
          rw [scan_runs]
          dsimp only
          rw [refresh_runs, start_run_runs, h0]
          rfl
        · apply post_tid_fin
          rw [tidRows_congr env.run_id _ db0 (by
            rw [scan_processed]
            dsimp only
            rw [refresh_processed, start_run_processed])]
          rw [tidRows_nil_of env.run_id db0 hP]
          rfl


theorem is_processed_congr (db db' : DB) (id : String) (h : db.processed = db'.processed) :
    is_processed db id = is_processed db' id := by
  unfold is_processed
  rw [h]

theorem fin_events_mem (env : RunEnv) (db : DB) (evs : List Ev) (s c e : Nat)
    (sel : List PendingTransaction) (ev : Ev)
    (h : ev ∈ (finishRun env db evs s c e sel).events) :
    ev ∈ evs ∨ (∃ i, ev = Ev.mark i) ∨ (∃ i, ev = Ev.scheduledSubmit i)
      ∨ (∃ l, ev = Ev.batchSubmit l) := by
  revert h
  unfold finishRun
  simp only []
  intro h
  rcases sb_events_mem env _ _ ev h with h1 | ⟨b, hb, h2 | ⟨t, ht, h2⟩⟩
  · rcases ssf_events_mem env _ _ ev h1 with h3 | ⟨t, ht, h3 | h3⟩
    · exact Or.inl h3
    · exact Or.inr (Or.inr (Or.inl ⟨t.email_id, h3⟩))
    · exact Or.inr (Or.inl ⟨t.email_id, h3⟩)
  · exact Or.inr (Or.inr (Or.inr ⟨_, h2⟩))
  · exact Or.inr (Or.inl ⟨t.email_id, h2⟩)

theorem pei_events_sub (env : RunEnv) (db0 : DB) (ev : Ev)
    (h : ev ∈ (processEmailsImpl env db0).events) :
    ev ∈ (env.emails.foldl (processOne env)
      ⟨(refresh_payee_cache_if_needed env (start_run db0 env.run_id env.now)).1,
       (refresh_payee_cache_if_needed env (start_run db0 env.run_id env.now)).2
         ++ [Ev.fetchEmails], 0, 0, 0, [], []⟩).events
    ∨ (∃ i, ev = Ev.mark i) ∨ (∃ i, ev = Ev.scheduledSubmit i)
    ∨ (∃ l, ev = Ev.batchSubmit l) := by
  revert h
  unfold processEmailsImpl
  simp only []
  split
  · intro h
    rcases mnr_events_mem env.run_id env.now _ _ ev h with h1 | ⟨i, hi, hev⟩
    · exact Or.inl h1
    · exact Or.inr (Or.inl ⟨i, hev⟩)
  · split
    · intro h
      rcases mnr_events_mem env.run_id env.now _ _ ev h with h1 | ⟨i, hi, hev⟩
      · exact Or.inl h1
      · exact Or.inr (Or.inl ⟨i, hev⟩)
    · split
      · intro h
        rcases mdes_events_mem env.run_id env.now _ _ ev h with h1 | ⟨t, ht, hev⟩
        · rcases mnr_events_mem env.run_id env.now _ _ ev h1 with h2 | ⟨i, hi, hev⟩
          · exact Or.inl h2
          · exact Or.inr (Or.inl ⟨i, hev⟩)
        · exact Or.inr (Or.inl ⟨t.email_id, hev⟩)
      · intro h
        rcases fin_events_mem env _ _ _ _ _ _ ev h with h1 | h1 | h1 | h1
        · rcases mdes_events_mem env.run_id env.now _ _ ev h1 with h2 | ⟨t, ht, hev⟩
          · rcases mnr_events_mem env.run_id env.now _ _ ev h2 with h3 | ⟨i, hi, hev⟩
            · exact Or.inl h3
            · exact Or.inr (Or.inl ⟨i, hev⟩)
          · exact Or.inr (Or.inl ⟨t.email_id, hev⟩)
        · exact Or.inr (Or.inl h1)
        · exact Or.inr (Or.inr (Or.inl h1))
        · exact Or.inr (Or.inr (Or.inr h1))

theorem ev1_no_lookup (env : RunEnv) (db1 : DB) (id : String) :
    Ev.cacheLookup id ∉ (refresh_payee_cache_if_needed env db1).2 ++ [Ev.fetchEmails]
      ∧ Ev.classifierCall id ∉ (refresh_payee_cache_if_needed env db1).2 ++ [Ev.fetchEmails] := by
  rcases refresh_events env db1 with h | h <;> rw [h] <;> constructor <;> simp

theorem scan_skip_no_lookup (env : RunEnv) (emails : List Email) :
    ∀ (st : ScanSt) id, env.force = false → is_processed st.db id = true →
      Ev.cacheLookup id ∉ st.events → Ev.classifierCall id ∉ st.events →
      Ev.cacheLookup id ∉ (emails.foldl (processOne env) st).events
        ∧ Ev.classifierCall id ∉ (emails.foldl (processOne env) st).events := by
  induction emails with
  | nil => intro st id _ _ h3 h4; exact ⟨h3, h4⟩
  | cons e rest ih =>
    intro st id hf hp h3 h4
    rw [List.foldl_cons]
    by_cases he : e.id = id
    · rw [processOne_skip env st e ⟨by rw [hf]; simp, by rw [he]; exact hp⟩]
      exact ih _ id hf hp h3 h4
    · refine ih _ id hf ?_ ?_ ?_
      · rw [is_processed_congr _ st.db id (processOne_processed env st e)]
        exact hp
      · intro hin
        rcases processOne_events_mem env st e _ hin with h5 | h5 | h5
        · exact h3 h5
        · injection h5 with h6
          exact he h6.symm
        · cases h5
      · intro hin
        rcases processOne_events_mem env st e _ hin with h5 | h5 | h5
        · exact h4 h5
        · cases h5
        · injection h5 with h6
          exact he h6.symm

/-- C6: for every email id recorded as processed, running the
orchestrator without the force flag performs neither the classifier call
nor even the cache lookup for that id: the email is skipped before
both. -/
theorem processed_skips_classifier (env : RunEnv) (db0 : DB) (id : String)
    (hf : env.force = false) (hp : is_processed db0 id = true) :
    Ev.classifierCall id ∉ (processEmailsImpl env db0).events
      ∧ Ev.cacheLookup id ∉ (processEmailsImpl env db0).events := by
  have hpe : ((refresh_payee_cache_if_needed env (start_run db0 env.run_id env.now)).1).processed
      = db0.processed := by
    rw [refresh_processed, start_run_processed]
  have hscan := scan_skip_no_lookup env env.emails
    ⟨(refresh_payee_cache_if_needed env (start_run db0 env.run_id env.now)).1,
     (refresh_payee_cache_if_needed env (start_run db0 env.run_id env.now)).2
       ++ [Ev.fetchEmails], 0, 0, 0, [], []⟩ id hf
    (by
      show is_processed ((refresh_payee_cache_if_needed env
        (start_run db0 env.run_id env.now)).1) id = true
      rw [is_processed_congr _ db0 id hpe]
      exact hp)
    (ev1_no_lookup env (start_run db0 env.run_id env.now) id).1
    (ev1_no_lookup env (start_run db0 env.run_id env.now) id).2
  constructor
  · intro hin
    rcases pei_events_sub env db0 _ hin with h1 | ⟨i, hev⟩ | ⟨i, hev⟩ | ⟨l, hev⟩
    · exact hscan.2 h1
    · cases hev
    · cases hev
    · cases hev
  · intro hin
    rcases pei_events_sub env db0 _ hin with h1 | ⟨i, hev⟩ | ⟨i, hev⟩ | ⟨l, hev⟩
    · exact hscan.1 h1
    · cases hev
    · cases hev
    · cases hev

theorem processed_skips_classifier_witness :
    (cancelEnv.force = false ∧ is_processed wDbPre "e1" = true)
      ∧ Ev.classifierCall "e1" ∉ (processEmailsImpl cancelEnv wDbPre).events :=
  ⟨⟨rfl, by decide⟩,
   (processed_skips_classifier cancelEnv wDbPre "e1" rfl (by decide)).1⟩

/-- C9: a classification result returned by the classifier — the
parse-failure sentinel included — is written to the cache under the
email id, and a cached id is never sent to the classifier again on a
later run. -/
theorem classification_cached_never_reinvoked (env : RunEnv) (db0 : DB) (id : String)
    (st : ScanSt) (e : Email) (text : String) (result : ClassificationResult)
    (hs : ¬ (¬ env.force = true ∧ is_processed st.db e.id = true))
    (hc : get_cached_classification st.db e.id = none)
    (hr : env.response e.id = Except.ok text)
    (hcl : classify_email text = Except.ok result)
    (hhas : cacheHas db0 id = true) :
    get_cached_classification (processOne env st e).db e.id = some result
      ∧ Ev.classifierCall id ∉ (processEmailsImpl env db0).events := by
  constructor
  · rw [processOne_miss_ok env st e text result hs hc hr hcl]
    rw [afterClassify_db]
    exact get_cached_upsert_self st.db e.id result
  · have hscan := scan_cached_no_call env env.emails
      ⟨(refresh_payee_cache_if_needed env (start_run db0 env.run_id env.now)).1,
       (refresh_payee_cache_if_needed env (start_run db0 env.run_id env.now)).2
         ++ [Ev.fetchEmails], 0, 0, 0, [], []⟩ id
      (by
        show cacheHas ((refresh_payee_cache_if_needed env
          (start_run db0 env.run_id env.now)).1) id = true
        rw [cacheHas_of_cache_eq _ db0 id (by rw [refresh_cache, start_run_cache])]
        exact hhas)
      (ev1_no_lookup env (start_run db0 env.run_id env.now) id).2
    intro hin
    rcases pei_events_sub env db0 _ hin with h1 | ⟨i, hev⟩ | ⟨i, hev⟩ | ⟨l, hev⟩
    · exact hscan.2 h1
    · cases hev
    · cases hev
    · cases hev

theorem classification_cached_never_reinvoked_witness :
    (classify_email respNoJson = Except.ok failedParseResult
        ∧ cacheHas wDbCache "e1" = true)
      ∧ get_cached_classification (processOne parseFailEnv wScan0 wEmail1).db "e1"
          = some failedParseResult
      ∧ Ev.classifierCall "e1" ∉ (processEmailsImpl parseFailEnv wDbCache).events := by
  have h := classification_cached_never_reinvoked parseFailEnv wDbCache "e1"
    wScan0 wEmail1 respNoJson failedParseResult
    (by decide) rfl rfl rfl (by decide)
  exact ⟨⟨rfl, by decide⟩, h.1, h.2⟩

/-- C1: cancelling at the interactive confirmation step does not leave
the persisted state unchanged: before the cancellation point the run has
already written a processed-email row (with `is_receipt = false` and this
run's id) for the below-threshold email, although the run is indeed
stopped without submitting anything. -/
theorem cancel_still_marks_nonreceipts :
    (∀ pts, cancelEnv.selection pts = none)
      ∧ (processEmailsImpl cancelEnv DB.empty).completed = false
      ∧ rowsFor "e1" (processEmailsImpl cancelEnv DB.empty).db
          = [⟨"e1", cancelEnv.now, false, none, some cancelEnv.run_id⟩]
      ∧ is_processed (processEmailsImpl cancelEnv DB.empty).db "e1" = true :=
  ⟨fun _ => rfl, by decide, by decide, by decide⟩

/-- C7: a batch rejected wholesale by the budgeting system contributes
exactly its length to the error count (accepted batches contribute
nothing), marks none of its members, does not stop the batch loop —
every batch of the run is still submitted — and the run still completes. -/
theorem batch_error_isolation (env : RunEnv) (st : BatchSt)
    (regular b : List PendingTransaction) (u : Unit)
    (_hb : b ∈ chunks5 regular) (herr : env.batchResponse b = Except.error u) :
    (submitBatches env st regular).errors
        = st.errors + ((chunks5 regular).map (fun c =>
            match env.batchResponse c with
            | .error _ => c.length
            | .ok _ => 0)).sum
      ∧ (∀ st' : BatchSt, (submitOneBatch env st' b).db = st'.db
          ∧ (submitOneBatch env st' b).errors = st'.errors + b.length)
      ∧ (∀ c ∈ chunks5 regular,
          Ev.batchSubmit (c.map (fun t => t.email_id)) ∈ (submitBatches env st regular).events)
      ∧ (∀ (db : DB) (evs : List Ev) (sk ca er : Nat) (sel : List PendingTransaction),
          (finishRun env db evs sk ca er sel).completed = true) := by
  refine ⟨sb_errors env regular st, ?_, ?_, ?_⟩
  · intro st'
    exact ⟨(sob_db_err env st' b u herr).1, (sob_db_err env st' b u herr).2.1⟩
  · exact sb_all_submitted env regular st
  · intro db evs sk ca er sel
    exact fin_completed env db evs sk ca er sel

theorem batch_error_isolation_witness :
    (List.take 5 wRegular ∈ chunks5 wRegular
        ∧ wBatchEnv.batchResponse (List.take 5 wRegular) = Except.error ())
      ∧ (submitBatches wBatchEnv ⟨DB.empty, [], 0, 0, 0⟩ wRegular).errors = 5
      ∧ Ev.batchSubmit ((List.drop 5 wRegular).map (fun t => t.email_id))
          ∈ (submitBatches wBatchEnv ⟨DB.empty, [], 0, 0, 0⟩ wRegular).events := by
  have h := batch_error_isolation wBatchEnv ⟨DB.empty, [], 0, 0, 0⟩ wRegular
    (List.take 5 wRegular) () (by decide) rfl
  refine ⟨⟨by decide, rfl⟩, ?_, ?_⟩
  · rw [h.1]
    decide
  · exact h.2.2.1 (List.drop 5 wRegular) (by decide)


theorem delete_run_records_runs (db : DB) (r : String) :
    (delete_run_records db r).runs = db.runs.filter (fun q => q.run_id ≠ r) := rfl

/-- C5: after a completed run that created N transactions (N the sum of
batch-created and scheduled-created ones, the count stored in the run
record), undo performs at most N deletion calls — and only deletion
calls — against the budgeting system, and for every deletion oracle the
ledger cleanup still happens: no processed-email row carrying the run id
survives and the run record is removed. -/
theorem undo_bounded_and_cleans (env : RunEnv) (db0 : DB) (oracle : String → DResult)
    (h0 : db0.runs = [])
    (hP : ∀ p ∈ db0.processed, p.run_id ≠ some env.run_id)
    (hc : (processEmailsImpl env db0).completed = true) :
    (undo_last_run_impl (processEmailsImpl env db0).db oracle).events.length
        ≤ (processEmailsImpl env db0).receipts_added
          + (processEmailsImpl env db0).scheduled_added
      ∧ (∀ ev ∈ (undo_last_run_impl (processEmailsImpl env db0).db oracle).events,
          ev.isDelete = true)
      ∧ ((undo_last_run_impl (processEmailsImpl env db0).db oracle).db.processed.filter
          (fun p => p.run_id = some env.run_id)) = []
      ∧ (undo_last_run_impl (processEmailsImpl env db0).db oracle).db.runs = [] := by
  obtain ⟨hA, hB⟩ := pei_completed_facts env db0 h0 hP hc
  have hg := get_last_run_of_single _ env.run_id env.now env.now _ hA
  have hup := undo_props _ env.run_id _ oracle hg hB
  have hdb := undo_db_eq _ env.run_id _ oracle hg
  refine ⟨hup.1, hup.2, ?_, ?_⟩
  · rw [hdb]
    exact (delete_run_records_clean _ env.run_id).1
  · rw [hdb, delete_run_records_runs, hA]
    simp

/-- C10: undo deletes every processed-email row of the undone run —
including the `is_receipt = false`, null-transaction-id rows — so that
afterwards `is_processed` is false for every email the run marked, not
only those whose transactions were created. -/
theorem undo_unprocesses_all_marked (env : RunEnv) (db0 : DB) (oracle : String → DResult)
    (id : String)
    (h0 : db0.runs = [])
    (hP : ∀ p ∈ db0.processed, p.run_id ≠ some env.run_id)
    (hc : (processEmailsImpl env db0).completed = true)
    (hm : Ev.mark id ∈ (processEmailsImpl env db0).events) :
    is_processed (undo_last_run_impl (processEmailsImpl env db0).db oracle).db id = false
      ∧ ((undo_last_run_impl (processEmailsImpl env db0).db oracle).db.processed.filter
          (fun p => p.run_id = some env.run_id)) = [] := by
  obtain ⟨hA, _⟩ := pei_completed_facts env db0 h0 hP hc
  have hg := get_last_run_of_single _ env.run_id env.now env.now _ hA
  have hdb := undo_db_eq _ env.run_id _ oracle hg
  have hrp := pei_runP env db0 id hm
  constructor
  · rw [hdb]
    unfold is_processed delete_run_records
    dsimp only
    rw [List.any_eq_false]
    intro p hp
    simp only [List.mem_filter, decide_eq_true_eq] at hp
    intro h3
    rw [decide_eq_true_eq] at h3
    exact hp.2 (hrp p hp.1 h3)
  · rw [hdb]
    exact (delete_run_records_clean _ env.run_id).1

/-- C8 (amended): a falsy configuration entry makes the run print the
missing keys and return — the process then exits with status 0, not a
non-zero one — before any network activity; a malformed `YNAB_ACCOUNTS`
(and the no-default or several-defaults cases, which `load_accounts`
turns into the same `SystemExit`) terminates with exit status 1, again
before any network activity; an empty account list prints and returns
with status 0. -/
theorem config_error_behavior (cfg : Cfg) (aj : Option String)
    (notes : List (String × String)) (lock : Bool) (env : RunEnv) (db0 : DB) :
    (configMissing cfg = true →
      process_emails cfg aj notes lock env db0 = MainOut.configError
        ∧ (process_emails cfg aj notes lock env db0).exitCode = 0
        ∧ (process_emails cfg aj notes lock env db0).events = [])
    ∧ (∀ msg, configMissing cfg = false → load_accounts aj notes = AccountsLoad.sysExit msg →
        process_emails cfg aj notes lock env db0 = MainOut.sysExit msg
          ∧ (process_emails cfg aj notes lock env db0).exitCode = 1
          ∧ (process_emails cfg aj notes lock env db0).events = [])
    ∧ (configMissing cfg = false → load_accounts aj notes = AccountsLoad.ok [] →
        process_emails cfg aj notes lock env db0 = MainOut.noAccounts
          ∧ (process_emails cfg aj notes lock env db0).exitCode = 0
          ∧ (process_emails cfg aj notes lock env db0).events = []) := by
  refine ⟨?_, ?_, ?_⟩
  · intro h
    unfold process_emails
    rw [if_pos h]
    exact ⟨rfl, rfl, rfl⟩
  · intro msg h1 h2
    unfold process_emails
    rw [if_neg (by simp [h1]), h2]
    exact ⟨rfl, rfl, rfl⟩
  · intro h1 h2
    unfold process_emails
    rw [if_neg (by simp [h1]), h2]
    exact ⟨rfl, rfl, rfl⟩

theorem config_error_behavior_witness :
    configMissing wCfgMissing = true
      ∧ process_emails wCfgMissing none [] false cancelEnv DB.empty = MainOut.configError
      ∧ (process_emails wCfgMissing none [] false cancelEnv DB.empty).exitCode = 0 :=
  ⟨by decide,
   ((config_error_behavior wCfgMissing none [] false cancelEnv DB.empty).1 (by decide)).1,
   ((config_error_behavior wCfgMissing none [] false cancelEnv DB.empty).1 (by decide)).2.1⟩

/-- C8 counterexample: with the Fastmail token missing the configuration
check fires, nothing touches the network — and the process exits with
status 0, not the non-zero status the specification claims. -/
theorem config_error_exit_zero :
    configMissing wCfgMissing = true
      ∧ (process_emails wCfgMissing none [] false cancelEnv DB.empty).exitCode = 0
      ∧ (process_emails wCfgMissing none [] false cancelEnv DB.empty).events = [] := by
  refine ⟨by decide, rfl, rfl⟩


theorem mnr_get_cached (rid now : String) (ids : List String) (a : DB × List Ev) (j : String) :
    get_cached_classification (markNonReceipts rid now a ids).1 j
      = get_cached_classification a.1 j :=
  get_cached_congr _ _ j (mnr_cache rid now ids a)

theorem undo_bounded_and_cleans_witness :
    (DB.empty.runs = ([] : List RunRow)
        ∧ (processEmailsImpl okRunEnv DB.empty).completed = true)
      ∧ (undo_last_run_impl (processEmailsImpl okRunEnv DB.empty).db
          (fun _ => DResult.failure)).events.length
          ≤ (processEmailsImpl okRunEnv DB.empty).receipts_added
            + (processEmailsImpl okRunEnv DB.empty).scheduled_added
      ∧ ((undo_last_run_impl (processEmailsImpl okRunEnv DB.empty).db
          (fun _ => DResult.failure)).db.processed.filter
            (fun p => p.run_id = some okRunEnv.run_id)) = []
      ∧ (undo_last_run_impl (processEmailsImpl okRunEnv DB.empty).db
          (fun _ => DResult.failure)).db.runs = [] := by
  have h := undo_bounded_and_cleans okRunEnv DB.empty (fun _ => DResult.failure)
    rfl (fun p hp => absurd hp (List.not_mem_nil p)) rfl
  exact ⟨⟨rfl, rfl⟩, h.1, h.2.2.1, h.2.2.2⟩

theorem undo_unprocesses_all_marked_witness :
    ((processEmailsImpl okRunEnv DB.empty).completed = true
        ∧ Ev.mark "e1" ∈ (processEmailsImpl okRunEnv DB.empty).events
        ∧ rowsFor "e1" (processEmailsImpl okRunEnv DB.empty).db
            = [⟨"e1", okRunEnv.now, false, none, some okRunEnv.run_id⟩])
      ∧ is_processed (undo_last_run_impl (processEmailsImpl okRunEnv DB.empty).db
          (fun _ => DResult.success)).db "e1" = false := by
  have h := undo_unprocesses_all_marked okRunEnv DB.empty (fun _ => DResult.success) "e1"
    rfl (fun p hp => absurd hp (List.not_mem_nil p)) rfl (by decide)
  exact ⟨⟨rfl, by decide, by decide⟩, h.1⟩

/-- C2 counterexample: with the one email's classifier response holding
no parseable JSON, the run marks the email processed (as a non-receipt
row of this run), counts no error, and caches the score-0 sentinel — the
email is neither left unprocessed nor retried on the next run. -/
theorem parse_failure_counterexample :
    is_processed (processEmailsImpl parseFailEnv DB.empty).db "e1" = true
      ∧ rowsFor "e1" (processEmailsImpl parseFailEnv DB.empty).db
          = [⟨"e1", parseFailEnv.now, false, none, some parseFailEnv.run_id⟩]
      ∧ (processEmailsImpl parseFailEnv DB.empty).errors = 0
      ∧ get_cached_classification (processEmailsImpl parseFailEnv DB.empty).db "e1"
          = some failedParseResult :=
  ⟨by decide, by decide, by decide, by decide⟩

/-- C2 (amended): an unparseable classifier response does not raise: it
yields the score-0 sentinel result, which falls below the (positive)
threshold, so the email is marked processed as a non-receipt row of the
current run, no error is counted, and the sentinel is cached — on the
next run the email is served from the cache rather than retried. -/
theorem parse_failure_marked_nonreceipt
    (env : RunEnv) (db0 : DB) (e : Email) (text : String)
    (hemails : env.emails = [e])
    (hnp : is_processed db0 e.id = false)
    (hnc : cacheHas db0 e.id = false)
    (hresp : env.response e.id = Except.ok text)
    (hj1 : jsonParse (pyStrip text) = none)
    (hj2 : extractBraceBlock (pyStrip text) = none)
    (hms : 0 < env.min_score) :
    classify_email text = Except.ok failedParseResult
      ∧ rowsFor e.id (processEmailsImpl env db0).db
          = [⟨e.id, env.now, false, none, some env.run_id⟩]
      ∧ is_processed (processEmailsImpl env db0).db e.id = true
      ∧ get_cached_classification (processEmailsImpl env db0).db e.id = some failedParseResult
      ∧ (processEmailsImpl env db0).errors = 0
      ∧ (processEmailsImpl env db0).completed = false := by
  have hcl : classify_email text = Except.ok failedParseResult := by
    unfold classify_email
    dsimp only
    rw [hj1, hj2]
  have hpe : ((refresh_payee_cache_if_needed env (start_run db0 env.run_id env.now)).1).processed
      = db0.processed := by rw [refresh_processed, start_run_processed]
  have hce : ((refresh_payee_cache_if_needed env (start_run db0 env.run_id env.now)).1).cache
      = db0.cache := by rw [refresh_cache, start_run_cache]
  have hget0 : get_cached_classification db0 e.id = none := by
    cases hgc : get_cached_classification db0 e.id with
    | none => rfl
    | some v =>
      unfold cacheHas at hnc
      rw [hgc] at hnc
      exact Bool.noConfusion hnc
  have hs0 : ¬ (¬ env.force = true ∧ is_processed
      ((refresh_payee_cache_if_needed env (start_run db0 env.run_id env.now)).1) e.id = true) := by
    intro hcon
    rw [is_processed_congr _ db0 e.id hpe, hnp] at hcon
    exact Bool.noConfusion hcon.2
  have hc0 : get_cached_classification
      ((refresh_payee_cache_if_needed env (start_run db0 env.run_id env.now)).1) e.id = none := by
    rw [get_cached_congr _ db0 e.id hce]
    exact hget0
  have hg : gate env e failedParseResult = GateOut.nonReceipt := by
    unfold gate
    rw [if_pos (show failedParseResult.score < env.min_score from hms)]
  refine ⟨hcl, ?_⟩
  unfold processEmailsImpl
  simp only []
  rw [hemails, List.foldl_cons, List.foldl_nil]
  rw [processOne_miss_ok env
    ⟨(refresh_payee_cache_if_needed env (start_run db0 env.run_id env.now)).1,
     (refresh_payee_cache_if_needed env (start_run db0 env.run_id env.now)).2
       ++ [Ev.fetchEmails], 0, 0, 0, [], []⟩ e text failedParseResult hs0 hc0 hresp hcl]
  unfold afterClassify
  rw [hg]
  simp only []
  split
  · refine ⟨?_, ?_, ?_, rfl, rfl⟩
    · rw [mnr_rowsFor]
      simp
    · exact mnr_marks env.run_id env.now ([] ++ [e.id]) _ e.id (by simp)
    · rw [mnr_get_cached]
      exact get_cached_upsert_self _ e.id failedParseResult
  · rename_i h
    exact absurd rfl h


theorem parse_failure_marked_nonreceipt_witness :
    (parseFailEnv.emails = [wEmail1]
        ∧ is_processed DB.empty "e1" = false
        ∧ jsonParse (pyStrip respNoJson) = none
        ∧ extractBraceBlock (pyStrip respNoJson) = none
        ∧ (0 : Int) < parseFailEnv.min_score)
      ∧ is_processed (processEmailsImpl parseFailEnv DB.empty).db "e1" = true
      ∧ get_cached_classification (processEmailsImpl parseFailEnv DB.empty).db "e1"
          = some failedParseResult := by
  have h := parse_failure_marked_nonreceipt parseFailEnv DB.empty wEmail1 respNoJson
    rfl rfl rfl rfl rfl rfl (by decide)
  exact ⟨⟨rfl, rfl, rfl, rfl, by decide⟩, h.2.2.1, h.2.2.2.1⟩

end F2Y
